import Mathlib

/-!
Verification of the two scripts of the `fighting-tomatoes` repository.

Part 1 embeds `src/packages/backend/check-fights.py` (the Fight Status
Reporter): a shallow embedding of the JSON values produced by `json.load`,
of Python truthiness, subscripting, `len`, iteration and slicing as used by
the script, and of the script's top-level statement sequence as a function
from the parsed standard input to the list of printed lines together with
an optional fatal error.

Part 2 embeds `src/extract_context.py` (the File Collector): a filesystem
modelled as an association list from paths (component lists) to entries
(regular files with content and metadata, or directories), the `pathlib`
and `shutil` operations the script uses, and the script's `main` loop.
-/

/-- JSON values as produced by Python's `json.load`.  Numbers are modelled
as integers (no claim involves fractional numbers); objects are the
key/value pairs of the resulting `dict`, where a duplicated key is resolved
to its last occurrence, as `json.load` does. -/
inductive Json where
  | null : Json
  | bool : Bool → Json
  | num : Int → Json
  | str : String → Json
  | arr : List Json → Json
  | obj : List (String × Json) → Json

/-- Errors a run of the reporter can raise: `keyError` from a failed dict
subscript, `typeError` from subscripting / measuring / slicing a value of
the wrong type, `valueError` from a failed `json.load`. -/
inductive PyErr where
  | keyError : PyErr
  | typeError : PyErr
  | valueError : PyErr
deriving DecidableEq

/-- Python truthiness of a JSON value: `None`, `False`, `0`, `""`, `[]` and
an empty dict are falsy, everything else is truthy. -/
def truthy : Json → Bool
  | .null => false
  | .bool b => b
  | .num n => n != 0
  | .str s => s != ""
  | .arr xs => !xs.isEmpty
  | .obj kvs => !kvs.isEmpty

/-- Lookup in the key/value pairs of a parsed object; the last binding of a
key wins, matching how `json.load` builds its `dict`. -/
def dictGet : List (String × Json) → String → Option Json
  | [], _ => none
  | (k, v) :: t, key =>
    match dictGet t key with
    | some r => some r
    | none => if k = key then some v else none

/-- `value[key]` for a string key: a dict lookup (`KeyError` when the key
is absent), a `TypeError` on any non-dict value. -/
def getKey : Json → String → Except PyErr Json
  | .obj kvs, key =>
    match dictGet kvs key with
    | some v => .ok v
    | none => .error .keyError
  | _, _ => .error .typeError

/-- Distinct elements of a list keeping the first occurrence of each, used
for the key set of a dict with duplicate source keys. -/
def firstKeys : List String → List String
  | [] => []
  | k :: t => k :: firstKeys (t.filter (fun x => x ≠ k))
termination_by l => l.length
decreasing_by
  exact Nat.lt_succ_of_le (List.length_filter_le _ _)

/-- Python `len` on a JSON value: length of a list or string, number of
keys of a dict, `TypeError` otherwise. -/
def lenPy : Json → Except PyErr Nat
  | .arr xs => .ok xs.length
  | .str s => .ok s.length
  | .obj kvs => .ok (firstKeys (kvs.map Prod.fst)).length
  | _ => .error .typeError

/-- Python iteration over a JSON value: the elements of a list, the
one-character strings of a string, the keys of a dict, `TypeError`
otherwise. -/
def iterPy : Json → Except PyErr (List Json)
  | .arr xs => .ok xs
  | .str s => .ok (s.toList.map (fun c => Json.str (String.singleton c)))
  | .obj kvs => .ok ((firstKeys (kvs.map Prod.fst)).map Json.str)
  | _ => .error .typeError

/-- Python slice `value[:5]`: the first five elements of a list or
characters of a string, `TypeError` otherwise (dicts are not sliceable). -/
def slice5 : Json → Except PyErr (List Json)
  | .arr xs => .ok (xs.take 5)
  | .str s => .ok ((s.toList.take 5).map (fun c => Json.str (String.singleton c)))
  | _ => .error .typeError

mutual

/-- Python `repr` of a JSON value, used when a list or dict is rendered
inside an f-string.  String quoting uses plain single quotes; `repr`'s
escaping of special characters inside strings is not modelled (no claim
renders such a value). -/
def pyRepr : Json → String
  | .null => "None"
  | .bool true => "True"
  | .bool false => "False"
  | .num n => toString n
  | .str s => "\x27" ++ s ++ "\x27"
  | .arr xs => "[" ++ String.intercalate ", " (pyReprList xs) ++ "]"
  | .obj kvs => "\x7b" ++ String.intercalate ", " (pyReprKVs kvs) ++ "\x7d"

/-- `repr` of the elements of a list value. -/
def pyReprList : List Json → List String
  | [] => []
  | j :: t => pyRepr j :: pyReprList t

/-- `repr` of the key/value pairs of a dict value. -/
def pyReprKVs : List (String × Json) → List String
  | [] => []
  | (k, v) :: t => ("\x27" ++ k ++ "\x27: " ++ pyRepr v) :: pyReprKVs t

end

/-- Python `str` of a JSON value, as an f-string renders it: `None`,
`True`/`False`, decimal integers, the raw text of a string, and `repr` for
lists and dicts. -/
def pyStr : Json → String
  | .null => "None"
  | .bool true => "True"
  | .bool false => "False"
  | .num n => toString n
  | .str s => s
  | .arr xs => pyRepr (.arr xs)
  | .obj kvs => pyRepr (.obj kvs)

/-- Length of the filtered comprehension `[f for f in fights if pred f]`:
the predicate is evaluated on every element from the left, and its first
error aborts the computation. -/
def countIf : List Json → (Json → Except PyErr Bool) → Except PyErr Nat
  | [], _ => .ok 0
  | f :: t, pred =>
    match pred f with
    | .error e => .error e
    | .ok b =>
      match countIf t pred with
      | .error e => .error e
      | .ok k => .ok (if b then k + 1 else k)

/-- The filter of line 9 of the script: `f['hasStarted']`. -/
def startedPred (f : Json) : Except PyErr Bool :=
  match getKey f "hasStarted" with
  | .error e => .error e
  | .ok v => .ok (truthy v)

/-- The filter of line 10 of the script: `f['isComplete']`. -/
def completePred (f : Json) : Except PyErr Bool :=
  match getKey f "isComplete" with
  | .error e => .error e
  | .ok v => .ok (truthy v)

/-- The filter of line 11 of the script:
`f['hasStarted'] and not f['isComplete']`, with Python's short-circuit:
`isComplete` is only looked up when `hasStarted` is truthy. -/
def livePred (f : Json) : Except PyErr Bool :=
  match getKey f "hasStarted" with
  | .error e => .error e
  | .ok v =>
    if truthy v then
      match getKey f "isComplete" with
      | .error e => .error e
      | .ok w => .ok (!truthy w)
    else .ok false

/-- The f-string of line 14 of the script, with its left-to-right
evaluation order (`f['fighter1']` is looked up twice, as in the source). -/
def renderLine (f : Json) : Except PyErr String :=
  match getKey f "fighter1" with
  | .error e => .error e
  | .ok f1a =>
  match getKey f1a "firstName" with
  | .error e => .error e
  | .ok a =>
  match getKey f "fighter1" with
  | .error e => .error e
  | .ok f1b =>
  match getKey f1b "lastName" with
  | .error e => .error e
  | .ok b =>
  match getKey f "fighter2" with
  | .error e => .error e
  | .ok f2a =>
  match getKey f2a "firstName" with
  | .error e => .error e
  | .ok c =>
  match getKey f "fighter2" with
  | .error e => .error e
  | .ok f2b =>
  match getKey f2b "lastName" with
  | .error e => .error e
  | .ok d =>
  match getKey f "hasStarted" with
  | .error e => .error e
  | .ok hs =>
  match getKey f "isComplete" with
  | .error e => .error e
  | .ok ic =>
    .ok ("  " ++ pyStr a ++ " " ++ pyStr b ++ " vs " ++ pyStr c ++ " " ++ pyStr d ++
      ": hasStarted=" ++ pyStr hs ++ ", complete=" ++ pyStr ic)

/-- The loop of lines 13-14 of the script: one printed line per record of
the slice, stopping with a fatal error at the first failing lookup. -/
def renderLoop (out : List String) : List Json → List String × Option PyErr
  | [] => (out, none)
  | f :: t =>
    match renderLine f with
    | .error e => (out, some e)
    | .ok line => renderLoop (out ++ [line]) t

/-- The whole script `check-fights.py`, as a function from the result of
`json.load(sys.stdin)` (`.error` when standard input is not parseable JSON)
to the payloads of the executed `print` calls, in order, paired with the
fatal error that terminated the run, if any.  Each listed string is the
argument of one `print` call (each print appends one newline on top). -/
def checkFights (input : Except Unit Json) : List String × Option PyErr :=
  match input with
  | .error _ => ([], some .valueError)
  | .ok response =>
  match getKey response "fights" with
  | .error e => ([], some e)
  | .ok fights =>
  let out1 := ["Fight statuses in database:\n"]
  match lenPy fights with
  | .error e => (out1, some e)
  | .ok n =>
  let out2 := out1 ++ ["Total fights: " ++ toString n]
  match iterPy fights with
  | .error e => (out2, some e)
  | .ok elems =>
  match countIf elems startedPred with
  | .error e => (out2, some e)
  | .ok a =>
  let out3 := out2 ++ ["Has started: " ++ toString a]
  match countIf elems completePred with
  | .error e => (out3, some e)
  | .ok b =>
  let out4 := out3 ++ ["Complete: " ++ toString b]
  match countIf elems livePred with
  | .error e => (out4, some e)
  | .ok c =>
  let out5 := out4 ++ ["Live (started but not complete): " ++ toString c]
  let out6 := out5 ++ ["\nMain card (first 5):"]
  match slice5 fights with
  | .error e => (out6, some e)
  | .ok card => renderLoop out6 card

/-- `True` when `value[key]` succeeds. -/
def hasField (f : Json) (key : String) : Bool :=
  match getKey f key with
  | .ok _ => true
  | .error _ => false

/-- Truthiness of a field, `false` when the field is absent; used by the
specification-side count formulas. -/
def fieldTruthy (f : Json) (key : String) : Bool :=
  match getKey f key with
  | .ok v => truthy v
  | .error _ => false

/-- Modelled from the spec's formula: started count = number of records
whose `hasStarted` is truthy. -/
def spec_startedCount (xs : List Json) : Nat :=
  (xs.filter (fun f => fieldTruthy f "hasStarted")).length

/-- Modelled from the spec's formula: complete count = number of records
whose `isComplete` is truthy. -/
def spec_completeCount (xs : List Json) : Nat :=
  (xs.filter (fun f => fieldTruthy f "isComplete")).length

/-- Modelled from the spec's formula: live count = number of records whose
`hasStarted` is truthy and whose `isComplete` is falsy. -/
def spec_liveCount (xs : List Json) : Nat :=
  (xs.filter (fun f => fieldTruthy f "hasStarted" && !fieldTruthy f "isComplete")).length

/-- The rendered main-card line of a record, defaulting to `""` when the
rendering raises; used only to state results about records whose rendering
succeeds. -/
def renderLineD (f : Json) : String :=
  match renderLine f with
  | .ok s => s
  | .error _ => ""

/-- A record carrying every field the script reads: `hasStarted`,
`isComplete`, and `firstName`/`lastName` under both `fighter1` and
`fighter2`. -/
def WellFormedFight (f : Json) : Bool :=
  hasField f "hasStarted" && hasField f "isComplete" &&
    (match getKey f "fighter1" with
     | .ok v => hasField v "firstName" && hasField v "lastName"
     | .error _ => false) &&
    (match getKey f "fighter2" with
     | .ok v => hasField v "firstName" && hasField v "lastName"
     | .error _ => false)

/-- A record lacking at least one expected field. -/
def lacksExpected (f : Json) : Bool :=
  !WellFormedFight f

/-- The spec's worked example input:
`{"fights":[{"hasStarted":true,"isComplete":false,"fighter1":{...},"fighter2":{...}}]}`. -/
def exampleInput : Json :=
  Json.obj [("fights", Json.arr [Json.obj
    [("hasStarted", Json.bool true),
     ("isComplete", Json.bool false),
     ("fighter1", Json.obj [("firstName", Json.str "Jon"), ("lastName", Json.str "Jones")]),
     ("fighter2", Json.obj [("firstName", Json.str "Tom"), ("lastName", Json.str "Aspinall")])]])]

/-!
Part 2: the File Collector, `src/extract_context.py`.

A filesystem is an association list from paths (lists of components) to
entries; the binding closest to the head of the list is current, and every
write prepends.  A regular file entry carries its content and the
modification-time/permission metadata that `shutil.copy2` preserves.
`Path.mkdir(parents=True, exist_ok=True)` / `os.makedirs(exist_ok=True)`
is modelled as create-if-absent for the path and each of its ancestors;
the `FileExistsError` Python raises when a regular file occupies a needed
directory position is outside the model (no claim exercises it).
-/

/-- A filesystem path, as its list of components. -/
abbrev FPath := List String

/-- Content plus the metadata `shutil.copy2` copies along. -/
structure FileData where
  content : String
  mtime : Nat
  mode : Nat
deriving DecidableEq

/-- A filesystem node: a regular file with data, or a directory. -/
inductive Entry where
  | file : FileData → Entry
  | dir : Entry
deriving DecidableEq

/-- A filesystem: bindings from paths to entries, first binding wins. -/
abbrev FS := List (FPath × Entry)

/-- The current entry at a path. -/
def lookupFS : FS → FPath → Option Entry
  | [], _ => none
  | (q, e) :: t, p => if q = p then some e else lookupFS t p

/-- `Path.exists()`. -/
def pathExists (fs : FS) (p : FPath) : Bool :=
  (lookupFS fs p).isSome

/-- `Path.is_dir()`. -/
def isDirB (fs : FS) (p : FPath) : Bool :=
  match lookupFS fs p with
  | some .dir => true
  | _ => false

/-- `Path.is_file()`. -/
def isFileB (fs : FS) (p : FPath) : Bool :=
  match lookupFS fs p with
  | some (.file _) => true
  | _ => false

/-- `src_path.relative_to(rel_root)`: the path with the root prefix
stripped, or an uncaught `ValueError` when the root is not a prefix. -/
def relativeTo (p root : FPath) : Except Unit FPath :=
  if root.isPrefixOf p then .ok (p.drop root.length) else .error ()

/-- One `mkdir(exist_ok=True)`: create the directory unless something is
already present at the path. -/
def ensureDir (fs : FS) (p : FPath) : FS :=
  if (lookupFS fs p).isSome then fs else (p, Entry.dir) :: fs

/-- Recursion worker for `mkdirParents`: the fuel argument bounds the
recursion depth by the number of path components, making the recursion
structural. -/
def mkdirParentsAux (fs : FS) : Nat → FPath → FS
  | 0, p => ensureDir fs p
  | _ + 1, [] => ensureDir fs []
  | n + 1, q@(_ :: _) => ensureDir (mkdirParentsAux fs n q.dropLast) q

/-- `mkdir(parents=True, exist_ok=True)` / `os.makedirs(exist_ok=True)`:
create the missing ancestors, then the path itself, mirroring the
recursion of `os.makedirs` on the parent. -/
def mkdirParents (fs : FS) (p : FPath) : FS :=
  mkdirParentsAux fs p.length p

/-- `shutil.copy2(src, dest)`: copy the regular file at `src`, content and
metadata, over whatever `dest` held.  (Only called behind `is_file`.) -/
def copy2 (fs : FS) (src dest : FPath) : FS :=
  match lookupFS fs src with
  | some (.file d) => (dest, Entry.file d) :: fs
  | _ => fs

/-- `shutil.copytree(src, dest, dirs_exist_ok=True)`: make `dest` (and
missing ancestors), then copy every binding of the subtree rooted at `src`
to the corresponding path under `dest`, overwriting collisions and keeping
non-colliding pre-existing destination contents. -/
def copytree (fs : FS) (src dest : FPath) : FS :=
  (fs.filterMap (fun pe =>
    if src.isPrefixOf pe.1 then some (dest ++ pe.1.drop src.length, pe.2) else none)) ++
    mkdirParents fs dest

/-- `copy_with_structure(src, dest_root, rel_root)` from the script:
resolve the source relative to the root (uncaught `ValueError` when it is
not a descendant), then `copytree` a directory, or make parents and
`copy2` a regular file. -/
def copy_with_structure (fs : FS) (src dest_root rel_root : FPath) : Except Unit FS :=
  match relativeTo src rel_root with
  | .error e => .error e
  | .ok rel =>
    if isDirB fs src then .ok (copytree fs src (dest_root ++ rel))
    else if isFileB fs src then
      .ok (copy2 (mkdirParents fs (dest_root ++ rel).dropLast) src (dest_root ++ rel))
    else .ok fs

/-- Rendering of a path the way the script's prints show it (Windows-style
component separator). -/
def pathStr (p : FPath) : String :=
  String.intercalate "\x5c" p

/-- The per-source success notice of the script's loop. -/
def copiedLine (p : FPath) : String :=
  "✅ Copied " ++ pathStr p

/-- The per-source skip notice of the script's loop. -/
def skipLine (p : FPath) : String :=
  "⚠️ Skipped missing: " ++ pathStr p

/-- The completion notice printed after the loop. -/
def doneLine (droot : FPath) : String :=
  "\nAll done! Files collected in: " ++ pathStr droot

/-- One iteration of the `for src in sources` loop: copy an existing
source (errors propagate), skip a missing one with a warning. -/
def collectorStep (proot droot : FPath) (fs : FS) (src : FPath) : Except Unit (FS × String) :=
  if pathExists fs src then
    match copy_with_structure fs src droot proot with
    | .error e => .error e
    | .ok fs2 => .ok (fs2, copiedLine src)
  else .ok (fs, skipLine src)

/-- The `for src in sources` loop, threading the filesystem and collecting
the printed lines; an uncaught error aborts the run. -/
def collectorLoop (proot droot : FPath) (fs : FS) : List FPath → Except Unit (FS × List String)
  | [] => .ok (fs, [])
  | s :: rest =>
    match collectorStep proot droot fs s with
    | .error e => .error e
    | .ok (fs2, line) =>
      match collectorLoop proot droot fs2 rest with
      | .error e => .error e
      | .ok (fs3, lines) => .ok (fs3, line :: lines)

/-- `main()` of the script, generalized over the source list and the two
roots: ensure the destination root exists, process the sources in order,
then print the completion notice. -/
def runCollector (sources : List FPath) (proot droot : FPath) (fs : FS) :
    Except Unit (FS × List String) :=
  match collectorLoop proot droot (mkdirParents fs droot) sources with
  | .error e => .error e
  | .ok (fs2, lines) => .ok (fs2, lines ++ [doneLine droot])

/-- The fixed project root of the script,
`C:\Users\avoca\fight-mobile-app`. -/
def projectRoot : FPath :=
  ["C:", "Users", "avoca", "fight-mobile-app"]

/-- The fixed source list of the script, all under the project root. -/
def theSources : List FPath :=
  [projectRoot ++ ["projectContext.md"],
   projectRoot ++ ["packages", "backend", "prisma", "schema.prisma"],
   projectRoot ++ ["packages", "backend", "src", "routes"],
   projectRoot ++ ["packages", "mobile", "app"],
   projectRoot ++ ["packages", "shared", "src", "types"],
   projectRoot ++ ["packages", "backend", "src", "middleware", "auth.ts"],
   projectRoot ++ ["packages", "mobile", "store", "AuthContext.tsx"]]

/-- The destination root, `Path.home() / "Desktop" /
"context-persistence-files"`, as a function of the home directory. -/
def destRoot (home : FPath) : FPath :=
  home ++ ["Desktop", "context-persistence-files"]

/-- The script's `main()` with its concrete constants. -/
def extractContextMain (home : FPath) (fs : FS) : Except Unit (FS × List String) :=
  runCollector theSources projectRoot (destRoot home) fs

/-- `mkdir(exist_ok=True)` as a transformation of the single entry at the
created path: create a directory exactly when the path was vacant. -/
def ensOpt : Option Entry → Option Entry
  | none => some Entry.dir
  | some e => some e

/-- The per-path effect classes a run of the collector is built from: a
constant write, no effect, or directory-creation-if-absent.  Closed under
composition, and every member is idempotent. -/
def CEI (h : Option Entry → Option Entry) : Prop :=
  (∃ v, ∀ x, h x = some v) ∨ (∀ x, h x = x) ∨ (∀ x, h x = ensOpt x)

/-- A path lies in the source region: below one of the declared sources. -/
def inRegion (S : List FPath) (q : FPath) : Bool :=
  S.any (fun s => s.isPrefixOf q)

/-- The source-region bindings of a filesystem, which a run of the
collector reads and never writes. -/
def srcPart (S : List FPath) (fs : FS) : FS :=
  fs.filter (fun pe => inRegion S pe.1)

/-- What any single effect of a run may do at path `p`: leave it alone,
create a directory where nothing was, or write the entry the source region
`σ` holds at the corresponding source path. -/
def WritesAt (σ : FS) (proot droot p : FPath) (h : Option Entry → Option Entry) : Prop :=
  ∀ x, h x = x ∨ (x = none ∧ h x = some Entry.dir) ∨
    (droot <+: p ∧ h x = lookupFS σ (proot ++ p.drop droot.length) ∧
      (lookupFS σ (proot ++ p.drop droot.length)).isSome = true)

/-- The paths a run can touch at all: the destination root's ancestor
chain, the destination image of an existing source and its ancestors, or a
destination path whose corresponding source-region path is occupied. -/
def TouchCond (σ : FS) (S : List FPath) (proot droot p : FPath) : Prop :=
  p <+: droot ∨
    (∃ s ∈ S, (lookupFS σ s).isSome = true ∧ p <+: droot ++ s.drop proot.length) ∨
    (droot <+: p ∧ (lookupFS σ (proot ++ p.drop droot.length)).isSome = true)

/-- The line the loop prints for a source, as read off the source region. -/
def stepLine (σ : FS) (s : FPath) : String :=
  if (lookupFS σ s).isSome then copiedLine s else skipLine s

/-!
Theorems.  First the Fight Status Reporter: count lemmas, render lemmas,
then the claims about `checkFights`.
-/

theorem countIf_key_ok (xs : List Json) (key : String)
    (h : ∀ f ∈ xs, hasField f key = true) :
    countIf xs (fun g => match getKey g key with
      | .error e => .error e
      | .ok v => .ok (truthy v)) =
      .ok ((xs.filter (fun f => fieldTruthy f key)).length) := by
  induction xs with
  | nil => rfl
  | cons f t ih =>
    have hf := h f (List.mem_cons_self f t)
    have ht := ih (fun g hg => h g (List.mem_cons_of_mem f hg))
    cases hgf : getKey f key with
    | error e => simp [hasField, hgf] at hf
    | ok v =>
      simp only [countIf, hgf, ht, List.filter_cons, fieldTruthy]
      cases htv : truthy v <;> simp [htv]

theorem countIf_key_err (xs : List Json) (key : String) (f : Json) (hf : f ∈ xs)
    (h : hasField f key = false) :
    ∃ e, countIf xs (fun g => match getKey g key with
      | .error e => .error e
      | .ok v => .ok (truthy v)) = .error e := by
  induction xs with
  | nil => cases hf
  | cons g t ih =>
    cases hgg : getKey g key with
    | error e =>
      exact ⟨e, by simp only [countIf, hgg]⟩
    | ok v =>
      rcases List.mem_cons.mp hf with hgf | hft
      · subst hgf
        simp [hasField, hgg] at h
      · rcases ih hft with ⟨e, he⟩
        exact ⟨e, by simp only [countIf, hgg, he]⟩

theorem countIf_live_ok (xs : List Json)
    (h : ∀ f ∈ xs, hasField f "hasStarted" = true ∧ hasField f "isComplete" = true) :
    countIf xs livePred = .ok (spec_liveCount xs) := by
  induction xs with
  | nil => rfl
  | cons f t ih =>
    have hf := h f (List.mem_cons_self f t)
    have ht := ih (fun g hg => h g (List.mem_cons_of_mem f hg))
    cases hgf : getKey f "hasStarted" with
    | error e => simp [hasField, hgf] at hf
    | ok v =>
      cases hgc : getKey f "isComplete" with
      | error e => simp [hasField, hgc] at hf
      | ok w =>
        simp only [countIf, livePred, hgf, hgc, ht, spec_liveCount, List.filter_cons,
          fieldTruthy]
        cases htv : truthy v <;> cases htw : truthy w <;>
          simp [htv, htw, spec_liveCount]

theorem renderLoop_ok (l : List Json) (out : List String)
    (h : ∀ f ∈ l, ∃ s, renderLine f = .ok s) :
    renderLoop out l = (out ++ l.map renderLineD, none) := by
  induction l generalizing out with
  | nil => simp [renderLoop]
  | cons f t ih =>
    rcases h f (List.mem_cons_self f t) with ⟨s, hs⟩
    have ht := ih (out ++ [renderLineD f]) (fun g hg => h g (List.mem_cons_of_mem f hg))
    simp only [renderLoop, hs, List.map_cons]
    have hd : renderLineD f = s := by simp [renderLineD, hs]
    rw [← hd] at hs ⊢
    rw [ht]
    simp

theorem renderLoop_fst_append (l : List Json) (out : List String) :
    ∃ t, (renderLoop out l).1 = out ++ t := by
  induction l generalizing out with
  | nil => exact ⟨[], by simp [renderLoop]⟩
  | cons f t ih =>
    cases hf : renderLine f with
    | error e => exact ⟨[], by simp [renderLoop, hf]⟩
    | ok s =>
      rcases ih (out ++ [s]) with ⟨u, hu⟩
      exact ⟨s :: u, by simp only [renderLoop, hf, hu]; simp⟩

theorem renderLoop_err (l : List Json) (out : List String) (f : Json) (hf : f ∈ l)
    (he : ∀ s, renderLine f ≠ .ok s) :
    (renderLoop out l).2.isSome = true ∧
      (renderLoop out l).1.length < out.length + l.length := by
  induction l generalizing out with
  | nil => cases hf
  | cons g t ih =>
    cases hg : renderLine g with
    | error e =>
      refine ⟨by simp [renderLoop, hg], ?_⟩
      simp only [renderLoop, hg, List.length_cons]
      omega
    | ok s =>
      rcases List.mem_cons.mp hf with hgf | hft
      · subst hgf
        exact absurd hg (he s)
      · rcases ih (out ++ [s]) hft with ⟨h1, h2⟩
        refine ⟨by simpa [renderLoop, hg] using h1, ?_⟩
        simp only [renderLoop, hg]
        simp only [List.length_append, List.length_cons, List.length_nil] at h2 ⊢
        omega

theorem wf_renderLine_ok (f : Json) (h : WellFormedFight f = true) :
    ∃ s, renderLine f = .ok s := by
  unfold WellFormedFight at h
  cases h1 : getKey f "fighter1" with
  | error e => rw [h1] at h; simp at h
  | ok v1 =>
    cases h2 : getKey f "fighter2" with
    | error e => rw [h2] at h; simp at h
    | ok v2 =>
      rw [h1, h2] at h
      simp only [Bool.and_eq_true] at h
      obtain ⟨⟨⟨hhs, hic⟩, hf1⟩, hf2⟩ := h
      cases h3 : getKey v1 "firstName" with
      | error e => simp [hasField, h3] at hf1
      | ok a =>
        cases h4 : getKey v1 "lastName" with
        | error e => simp [hasField, h4] at hf1
        | ok b =>
          cases h5 : getKey v2 "firstName" with
          | error e => simp [hasField, h5] at hf2
          | ok c =>
            cases h6 : getKey v2 "lastName" with
            | error e => simp [hasField, h6] at hf2
            | ok d =>
              cases h7 : getKey f "hasStarted" with
              | error e => simp [hasField, h7] at hhs
              | ok hs =>
                cases h8 : getKey f "isComplete" with
                | error e => simp [hasField, h8] at hic
                | ok ic =>
                  exact ⟨_, by simp only [renderLine, h1, h2, h3, h4, h5, h6, h7, h8]; rfl⟩

theorem renderLine_err (f : Json) (hw : WellFormedFight f = false)
    (hhs : hasField f "hasStarted" = true) (hic : hasField f "isComplete" = true) :
    ∃ e, renderLine f = .error e := by
  cases h1 : getKey f "fighter1" with
  | error e => exact ⟨e, by simp only [renderLine, h1]⟩
  | ok v1 =>
    cases h3 : getKey v1 "firstName" with
    | error e => exact ⟨e, by simp only [renderLine, h1, h3]⟩
    | ok a =>
      cases h4 : getKey v1 "lastName" with
      | error e => exact ⟨e, by simp only [renderLine, h1, h3, h4]⟩
      | ok b =>
        cases h2 : getKey f "fighter2" with
        | error e => exact ⟨e, by simp only [renderLine, h1, h3, h4, h2]⟩
        | ok v2 =>
          cases h5 : getKey v2 "firstName" with
          | error e => exact ⟨e, by simp only [renderLine, h1, h3, h4, h2, h5]⟩
          | ok c =>
            cases h6 : getKey v2 "lastName" with
            | error e => exact ⟨e, by simp only [renderLine, h1, h3, h4, h2, h5, h6]⟩
            | ok d =>
              exfalso
              cases h7 : getKey f "hasStarted" with
              | error e => simp [hasField, h7] at hhs
              | ok hs =>
                cases h8 : getKey f "isComplete" with
                | error e => simp [hasField, h8] at hic
                | ok ic =>
                  simp [WellFormedFight, hasField, h1, h2, h3, h4, h5, h6, h7, h8] at hw

/-- Claim C8: on the spec's worked example input, the reporter prints the
header, `Total fights: 1`, `Has started: 1`, `Complete: 0`,
`Live (started but not complete): 1`, the main-card header, and the line
`  Jon Jones vs Tom Aspinall: hasStarted=True, complete=False`, and
terminates without error. -/
theorem claim_C8 :
    checkFights (.ok exampleInput) =
      (["Fight statuses in database:\n", "Total fights: 1", "Has started: 1", "Complete: 0",
        "Live (started but not complete): 1", "\nMain card (first 5):",
        "  Jon Jones vs Tom Aspinall: hasStarted=True, complete=False"], none) := by
  rfl

/-- Counterexample to claim C4 as stated: the input
`{"fights":[{}]}` parses as JSON and carries the key `fights`, yet the
reporter terminates with a fatal error (a `KeyError` during the count
computation), so failures are not confined to unparseable input or a
missing `fights` key. -/
theorem claim_C4_counterexample :
    (checkFights (.ok (Json.obj [("fights", Json.arr [Json.obj []])]))).2.isSome = true ∧
      getKey (Json.obj [("fights", Json.arr [Json.obj []])]) "fights" =
        .ok (Json.arr [Json.obj []]) :=
  ⟨rfl, rfl⟩

/-- Claim C4 as amended: whenever standard input is not parseable as a
single JSON value, or the parsed value lacks the key `fights`, the
reporter terminates with a fatal error (non-zero exit status); success
(no fatal error) yields exit status 0. -/
theorem claim_C4 (input : Except Unit Json)
    (h : ∀ j, input = .ok j → ∃ e, getKey j "fights" = .error e) :
    (checkFights input).2.isSome = true := by
  cases input with
  | error u => rfl
  | ok j =>
    rcases h j rfl with ⟨e, he⟩
    simp [checkFights, he]

theorem claim_C4_witness :
    (∀ j, (Except.ok (Json.obj []) : Except Unit Json) = .ok j →
      ∃ e, getKey j "fights" = .error e) ∧
      (checkFights (.ok (Json.obj []))).2.isSome = true := by
  refine ⟨fun j hj => by cases hj; exact ⟨.keyError, rfl⟩, ?_⟩
  exact claim_C4 (.ok (Json.obj [])) (fun j hj => by cases hj; exact ⟨.keyError, rfl⟩)

/-- Claim C10: if any record of the fights array, at any position, lacks
`hasStarted` or `isComplete`, the reporter dies during the count
computation: it terminates with a fatal error having printed only the
header and the total line (and possibly the started line), never reaching
the Main card section. -/
theorem claim_C10 (response : Json) (xs : List Json) (f : Json)
    (hget : getKey response "fights" = .ok (.arr xs)) (hf : f ∈ xs)
    (hl : hasField f "hasStarted" = false ∨ hasField f "isComplete" = false) :
    (checkFights (.ok response)).2.isSome = true ∧
      ((checkFights (.ok response)).1 =
          ["Fight statuses in database:\n", "Total fights: " ++ toString xs.length] ∨
        (checkFights (.ok response)).1 =
          ["Fight statuses in database:\n", "Total fights: " ++ toString xs.length,
            "Has started: " ++ toString (spec_startedCount xs)]) := by
  by_cases ha : ∃ g ∈ xs, hasField g "hasStarted" = false
  · rcases ha with ⟨g, hg, hgf⟩
    rcases countIf_key_err xs "hasStarted" g hg hgf with ⟨e, he⟩
    have he' : countIf xs startedPred = .error e := he
    simp only [checkFights, hget, lenPy, iterPy, he']
    exact ⟨rfl, Or.inl (by simp)⟩
  · have ha' : ∀ g ∈ xs, hasField g "hasStarted" = true := by
      intro g hg
      by_contra hc
      exact ha ⟨g, hg, by simpa using hc⟩
    have hfc : hasField f "isComplete" = false := by
      rcases hl with h | h
      · rw [ha' f hf] at h; cases h
      · exact h
    have hs : countIf xs startedPred = .ok (spec_startedCount xs) :=
      countIf_key_ok xs "hasStarted" ha'
    rcases countIf_key_err xs "isComplete" f hf hfc with ⟨e, he⟩
    have he' : countIf xs completePred = .error e := he
    simp only [checkFights, hget, lenPy, iterPy, hs, he']
    exact ⟨rfl, Or.inr (by simp)⟩

theorem get_mem_take (xs : List Json) (n i : Nat) (hin : i < n) (hilen : i < xs.length) :
    xs.get ⟨i, hilen⟩ ∈ xs.take n := by
  induction xs generalizing n i with
  | nil => simp at hilen
  | cons x t ih =>
    cases n with
    | zero => omega
    | succ m =>
      cases i with
      | zero => simp [List.take]
      | succ j =>
        simp only [List.take, List.get]
        exact List.mem_cons_of_mem _
          (ih m j (Nat.lt_of_succ_lt_succ hin) (Nat.lt_of_succ_lt_succ hilen))

theorem wf_count_fields (f : Json) (h : WellFormedFight f = true) :
    hasField f "hasStarted" = true ∧ hasField f "isComplete" = true := by
  simp only [WellFormedFight, Bool.and_eq_true] at h
  exact ⟨h.1.1.1, h.1.1.2⟩

/-- Claim C1: for an input whose `fights` key holds an array of records
each carrying `hasStarted` and `isComplete`, the reporter prints, after the
header, the total count (the array length), the started count (records
with truthy `hasStarted`), the complete count (records with truthy
`isComplete`) and the live count (records with truthy `hasStarted` and
falsy `isComplete`), in that order. -/
theorem claim_C1 (response : Json) (xs : List Json)
    (hget : getKey response "fights" = .ok (.arr xs))
    (h : ∀ f ∈ xs, hasField f "hasStarted" = true ∧ hasField f "isComplete" = true) :
    ∃ rest, (checkFights (.ok response)).1 =
      ["Fight statuses in database:\n",
       "Total fights: " ++ toString xs.length,
       "Has started: " ++ toString (spec_startedCount xs),
       "Complete: " ++ toString (spec_completeCount xs),
       "Live (started but not complete): " ++ toString (spec_liveCount xs),
       "\nMain card (first 5):"] ++ rest := by
  have hs : countIf xs startedPred = .ok (spec_startedCount xs) :=
    countIf_key_ok xs "hasStarted" (fun f hf => (h f hf).1)
  have hc : countIf xs completePred = .ok (spec_completeCount xs) :=
    countIf_key_ok xs "isComplete" (fun f hf => (h f hf).2)
  have hl : countIf xs livePred = .ok (spec_liveCount xs) := countIf_live_ok xs h
  simp only [checkFights, hget, lenPy, iterPy, hs, hc, hl, slice5]
  rcases renderLoop_fst_append (xs.take 5)
    (["Fight statuses in database:\n"] ++ ["Total fights: " ++ toString xs.length] ++
      ["Has started: " ++ toString (spec_startedCount xs)] ++
      ["Complete: " ++ toString (spec_completeCount xs)] ++
      ["Live (started but not complete): " ++ toString (spec_liveCount xs)] ++
      ["\nMain card (first 5):"]) with ⟨t, ht⟩
  exact ⟨t, by rw [ht]; simp⟩

/-- Claim C3: for a well-formed fights array the reporter succeeds; the
Main card section lists exactly `min 5 n` lines, one per record among the
first five, in array order; with exactly 7 records it lists exactly 5
lines; with an empty array it lists zero lines and all four printed counts
are 0. -/
theorem claim_C3 (response : Json) (xs : List Json)
    (hget : getKey response "fights" = .ok (.arr xs))
    (hw : ∀ f ∈ xs, WellFormedFight f = true) :
    checkFights (.ok response) =
      (["Fight statuses in database:\n",
        "Total fights: " ++ toString xs.length,
        "Has started: " ++ toString (spec_startedCount xs),
        "Complete: " ++ toString (spec_completeCount xs),
        "Live (started but not complete): " ++ toString (spec_liveCount xs),
        "\nMain card (first 5):"] ++ (xs.take 5).map renderLineD, none) ∧
      ((xs.take 5).map renderLineD).length = min 5 xs.length ∧
      (xs.length = 7 → ((xs.take 5).map renderLineD).length = 5) ∧
      (xs = [] → spec_startedCount xs = 0 ∧ spec_completeCount xs = 0 ∧
        spec_liveCount xs = 0 ∧ (xs.take 5).map renderLineD = []) := by
  have h : ∀ f ∈ xs, hasField f "hasStarted" = true ∧ hasField f "isComplete" = true :=
    fun f hf => wf_count_fields f (hw f hf)
  have hs : countIf xs startedPred = .ok (spec_startedCount xs) :=
    countIf_key_ok xs "hasStarted" (fun f hf => (h f hf).1)
  have hc : countIf xs completePred = .ok (spec_completeCount xs) :=
    countIf_key_ok xs "isComplete" (fun f hf => (h f hf).2)
  have hl : countIf xs livePred = .ok (spec_liveCount xs) := countIf_live_ok xs h
  have hr := renderLoop_ok (xs.take 5)
    (["Fight statuses in database:\n"] ++ ["Total fights: " ++ toString xs.length] ++
      ["Has started: " ++ toString (spec_startedCount xs)] ++
      ["Complete: " ++ toString (spec_completeCount xs)] ++
      ["Live (started but not complete): " ++ toString (spec_liveCount xs)] ++
      ["\nMain card (first 5):"])
    (fun f hf => wf_renderLine_ok f (hw f (List.take_subset 5 xs hf)))
  refine ⟨?_, ?_, ?_, ?_⟩
  · simp only [checkFights, hget, lenPy, iterPy, hs, hc, hl, slice5]
    rw [hr]
    simp
  · simp [List.length_take]
  · intro h7
    simp [List.length_take, h7]
  · intro he
    subst he
    exact ⟨rfl, rfl, rfl, rfl⟩

/-- Claim C5: if one of the first five records lacks an expected field,
the reporter terminates with a fatal key-lookup error, having printed
fewer lines than a complete report would contain. -/
theorem claim_C5 (response : Json) (xs : List Json)
    (hget : getKey response "fights" = .ok (.arr xs)) (i : Nat) (hi5 : i < 5)
    (hilen : i < xs.length) (hl : lacksExpected (xs.get ⟨i, hilen⟩) = true) :
    (checkFights (.ok response)).2.isSome = true ∧
      (checkFights (.ok response)).1.length < 6 + min 5 xs.length := by
  have hmin : 0 ≤ min 5 xs.length := Nat.zero_le _
  by_cases ha : ∃ g ∈ xs, hasField g "hasStarted" = false
  · rcases ha with ⟨g, hg, hgf⟩
    rcases countIf_key_err xs "hasStarted" g hg hgf with ⟨e, he⟩
    have he' : countIf xs startedPred = .error e := he
    simp only [checkFights, hget, lenPy, iterPy, he']
    exact ⟨rfl, by simp; omega⟩
  · have ha' : ∀ g ∈ xs, hasField g "hasStarted" = true := by
      intro g hg
      by_contra hc
      exact ha ⟨g, hg, by simpa using hc⟩
    have hsok : countIf xs startedPred = .ok (spec_startedCount xs) :=
      countIf_key_ok xs "hasStarted" ha'
    by_cases hb : ∃ g ∈ xs, hasField g "isComplete" = false
    · rcases hb with ⟨g, hg, hgf⟩
      rcases countIf_key_err xs "isComplete" g hg hgf with ⟨e, he⟩
      have he' : countIf xs completePred = .error e := he
      simp only [checkFights, hget, lenPy, iterPy, hsok, he']
      exact ⟨rfl, by simp; omega⟩
    · have hb' : ∀ g ∈ xs, hasField g "isComplete" = true := by
        intro g hg
        by_contra hc
        exact hb ⟨g, hg, by simpa using hc⟩
      have h2 : ∀ f ∈ xs, hasField f "hasStarted" = true ∧ hasField f "isComplete" = true :=
        fun f hf => ⟨ha' f hf, hb' f hf⟩
      have hcok : countIf xs completePred = .ok (spec_completeCount xs) :=
        countIf_key_ok xs "isComplete" hb'
      have hlok : countIf xs livePred = .ok (spec_liveCount xs) := countIf_live_ok xs h2
      set f := xs.get ⟨i, hilen⟩ with hfdef
      have hfx : f ∈ xs := List.get_mem xs i hilen
      have hwf : WellFormedFight f = false := by
        simp only [lacksExpected, Bool.not_eq_true'] at hl
        exact hl
      rcases renderLine_err f hwf (ha' f hfx) (hb' f hfx) with ⟨e, he⟩
      have hne : ∀ s, renderLine f ≠ .ok s := by
        intro s hsS
        rw [he] at hsS
        cases hsS
      have hmem : f ∈ xs.take 5 := get_mem_take xs 5 i hi5 hilen
      have hrl := renderLoop_err (xs.take 5)
        (["Fight statuses in database:\n"] ++ ["Total fights: " ++ toString xs.length] ++
          ["Has started: " ++ toString (spec_startedCount xs)] ++
          ["Complete: " ++ toString (spec_completeCount xs)] ++
          ["Live (started but not complete): " ++ toString (spec_liveCount xs)] ++
          ["\nMain card (first 5):"]) f hmem hne
    
      simp only [checkFights, hget, lenPy, iterPy, hsok, hcok, hlok, slice5]
      refine ⟨hrl.1, ?_⟩
      have := hrl.2
      simp only [List.length_append, List.length_cons, List.length_nil, List.length_take] at this ⊢
      omega

theorem claim_C1_witness :
    (getKey (Json.obj [("fights", Json.arr
        [Json.obj [("hasStarted", Json.bool true), ("isComplete", Json.bool false)]])])
      "fights" = .ok (.arr
        [Json.obj [("hasStarted", Json.bool true), ("isComplete", Json.bool false)]])) ∧
    (∀ f ∈ [Json.obj [("hasStarted", Json.bool true), ("isComplete", Json.bool false)]],
      hasField f "hasStarted" = true ∧ hasField f "isComplete" = true) ∧
    (∃ rest, (checkFights (.ok (Json.obj [("fights", Json.arr
        [Json.obj [("hasStarted", Json.bool true), ("isComplete", Json.bool false)]])]))).1 =
      ["Fight statuses in database:\n",
       "Total fights: " ++ toString
         (List.length [Json.obj [("hasStarted", Json.bool true), ("isComplete", Json.bool false)]]),
       "Has started: " ++ toString (spec_startedCount
         [Json.obj [("hasStarted", Json.bool true), ("isComplete", Json.bool false)]]),
       "Complete: " ++ toString (spec_completeCount
         [Json.obj [("hasStarted", Json.bool true), ("isComplete", Json.bool false)]]),
       "Live (started but not complete): " ++ toString (spec_liveCount
         [Json.obj [("hasStarted", Json.bool true), ("isComplete", Json.bool false)]]),
       "\nMain card (first 5):"] ++ rest) :=
  ⟨rfl, by decide, claim_C1 _ _ rfl (by decide)⟩

theorem claim_C3_witness :
    (getKey exampleInput "fights" = .ok (.arr [Json.obj
      [("hasStarted", Json.bool true),
       ("isComplete", Json.bool false),
       ("fighter1", Json.obj [("firstName", Json.str "Jon"), ("lastName", Json.str "Jones")]),
       ("fighter2", Json.obj [("firstName", Json.str "Tom"), ("lastName", Json.str "Aspinall")])]])) ∧
    (∀ f ∈ [Json.obj
      [("hasStarted", Json.bool true),
       ("isComplete", Json.bool false),
       ("fighter1", Json.obj [("firstName", Json.str "Jon"), ("lastName", Json.str "Jones")]),
       ("fighter2", Json.obj [("firstName", Json.str "Tom"), ("lastName", Json.str "Aspinall")])]],
      WellFormedFight f = true) ∧
    (checkFights (.ok exampleInput) =
      (["Fight statuses in database:\n",
        "Total fights: " ++ toString (List.length [Json.obj
          [("hasStarted", Json.bool true),
           ("isComplete", Json.bool false),
           ("fighter1", Json.obj [("firstName", Json.str "Jon"), ("lastName", Json.str "Jones")]),
           ("fighter2", Json.obj [("firstName", Json.str "Tom"), ("lastName", Json.str "Aspinall")])]]),
        "Has started: " ++ toString (spec_startedCount [Json.obj
          [("hasStarted", Json.bool true),
           ("isComplete", Json.bool false),
           ("fighter1", Json.obj [("firstName", Json.str "Jon"), ("lastName", Json.str "Jones")]),
           ("fighter2", Json.obj [("firstName", Json.str "Tom"), ("lastName", Json.str "Aspinall")])]]),
        "Complete: " ++ toString (spec_completeCount [Json.obj
          [("hasStarted", Json.bool true),
           ("isComplete", Json.bool false),
           ("fighter1", Json.obj [("firstName", Json.str "Jon"), ("lastName", Json.str "Jones")]),
           ("fighter2", Json.obj [("firstName", Json.str "Tom"), ("lastName", Json.str "Aspinall")])]]),
        "Live (started but not complete): " ++ toString (spec_liveCount [Json.obj
          [("hasStarted", Json.bool true),
           ("isComplete", Json.bool false),
           ("fighter1", Json.obj [("firstName", Json.str "Jon"), ("lastName", Json.str "Jones")]),
           ("fighter2", Json.obj [("firstName", Json.str "Tom"), ("lastName", Json.str "Aspinall")])]]),
        "\nMain card (first 5):"] ++
        (([Json.obj
          [("hasStarted", Json.bool true),
           ("isComplete", Json.bool false),
           ("fighter1", Json.obj [("firstName", Json.str "Jon"), ("lastName", Json.str "Jones")]),
           ("fighter2", Json.obj [("firstName", Json.str "Tom"),
             ("lastName", Json.str "Aspinall")])]].take 5).map renderLineD), none) ∧
      (List.length (([Json.obj
          [("hasStarted", Json.bool true),
           ("isComplete", Json.bool false),
           ("fighter1", Json.obj [("firstName", Json.str "Jon"), ("lastName", Json.str "Jones")]),
           ("fighter2", Json.obj [("firstName", Json.str "Tom"),
             ("lastName", Json.str "Aspinall")])]].take 5).map renderLineD) =
        min 5 (List.length [Json.obj
          [("hasStarted", Json.bool true),
           ("isComplete", Json.bool false),
           ("fighter1", Json.obj [("firstName", Json.str "Jon"), ("lastName", Json.str "Jones")]),
           ("fighter2", Json.obj [("firstName", Json.str "Tom"),
             ("lastName", Json.str "Aspinall")])]])) ∧
      (List.length [Json.obj
          [("hasStarted", Json.bool true),
           ("isComplete", Json.bool false),
           ("fighter1", Json.obj [("firstName", Json.str "Jon"), ("lastName", Json.str "Jones")]),
           ("fighter2", Json.obj [("firstName", Json.str "Tom"),
             ("lastName", Json.str "Aspinall")])]] = 7 →
        List.length (([Json.obj
          [("hasStarted", Json.bool true),
           ("isComplete", Json.bool false),
           ("fighter1", Json.obj [("firstName", Json.str "Jon"), ("lastName", Json.str "Jones")]),
           ("fighter2", Json.obj [("firstName", Json.str "Tom"),
             ("lastName", Json.str "Aspinall")])]].take 5).map renderLineD) = 5) ∧
      ([Json.obj
          [("hasStarted", Json.bool true),
           ("isComplete", Json.bool false),
           ("fighter1", Json.obj [("firstName", Json.str "Jon"), ("lastName", Json.str "Jones")]),
           ("fighter2", Json.obj [("firstName", Json.str "Tom"),
             ("lastName", Json.str "Aspinall")])]] = ([] : List Json) →
        spec_startedCount [Json.obj
          [("hasStarted", Json.bool true),
           ("isComplete", Json.bool false),
           ("fighter1", Json.obj [("firstName", Json.str "Jon"), ("lastName", Json.str "Jones")]),
           ("fighter2", Json.obj [("firstName", Json.str "Tom"),
             ("lastName", Json.str "Aspinall")])]] = 0 ∧
        spec_completeCount [Json.obj
          [("hasStarted", Json.bool true),
           ("isComplete", Json.bool false),
           ("fighter1", Json.obj [("firstName", Json.str "Jon"), ("lastName", Json.str "Jones")]),
           ("fighter2", Json.obj [("firstName", Json.str "Tom"),
             ("lastName", Json.str "Aspinall")])]] = 0 ∧
        spec_liveCount [Json.obj
          [("hasStarted", Json.bool true),
           ("isComplete", Json.bool false),
           ("fighter1", Json.obj [("firstName", Json.str "Jon"), ("lastName", Json.str "Jones")]),
           ("fighter2", Json.obj [("firstName", Json.str "Tom"),
             ("lastName", Json.str "Aspinall")])]] = 0 ∧
        ([Json.obj
          [("hasStarted", Json.bool true),
           ("isComplete", Json.bool false),
           ("fighter1", Json.obj [("firstName", Json.str "Jon"), ("lastName", Json.str "Jones")]),
           ("fighter2", Json.obj [("firstName", Json.str "Tom"),
             ("lastName", Json.str "Aspinall")])]].take 5).map renderLineD = [])) :=
  ⟨rfl, by decide, claim_C3 _ _ rfl (by decide)⟩

theorem claim_C5_witness :
    (getKey (Json.obj [("fights", Json.arr [Json.obj []])]) "fights" =
      .ok (.arr [Json.obj []])) ∧ 0 < 5 ∧ 0 < List.length [Json.obj []] ∧
    lacksExpected (Json.obj []) = true ∧
    ((checkFights (.ok (Json.obj [("fights", Json.arr [Json.obj []])]))).2.isSome = true ∧
      (checkFights (.ok (Json.obj [("fights", Json.arr [Json.obj []])]))).1.length <
        6 + min 5 (List.length [Json.obj []])) :=
  ⟨rfl, by decide, by decide, by decide,
    claim_C5 _ _ rfl 0 (by decide) (by decide) (by decide)⟩

theorem claim_C10_witness :
    (getKey (Json.obj [("fights", Json.arr [Json.obj []])]) "fights" =
      .ok (.arr [Json.obj []])) ∧
    Json.obj [] ∈ [Json.obj []] ∧
    (hasField (Json.obj []) "hasStarted" = false ∨
      hasField (Json.obj []) "isComplete" = false) ∧
    ((checkFights (.ok (Json.obj [("fights", Json.arr [Json.obj []])]))).2.isSome = true ∧
      ((checkFights (.ok (Json.obj [("fights", Json.arr [Json.obj []])]))).1 =
          ["Fight statuses in database:\n",
           "Total fights: " ++ toString (List.length [Json.obj []])] ∨
        (checkFights (.ok (Json.obj [("fights", Json.arr [Json.obj []])]))).1 =
          ["Fight statuses in database:\n",
           "Total fights: " ++ toString (List.length [Json.obj []]),
           "Has started: " ++ toString (spec_startedCount [Json.obj []])])) :=
  ⟨rfl, List.mem_cons_self _ _, Or.inl (by decide),
    claim_C10 _ _ (Json.obj []) rfl (List.mem_cons_self _ _) (Or.inl (by decide))⟩

/-!
File Collector lemmas: prefix helpers, lookup characterizations of each
filesystem operation, source-region stability, and the per-path effect
decomposition (`CEI`) used for idempotence.
-/

theorem pref_antisymm {p q : FPath} (h1 : p <+: q) (h2 : q <+: p) : p = q := by
  have hl : p.length = q.length := Nat.le_antisymm h1.length_le h2.length_le
  rw [ List.prefix_iff_eq_take] at h1
  rw [h1, hl, List.take_length]

theorem pref_of_append {s d : FPath} {y z : List String} (h : s ++ y = d ++ z) :
    s <+: d ∨ d <+: s :=
  List.prefix_or_prefix_of_prefix ⟨y, h⟩ ( List.prefix_append d z)

theorem pref_dropLast {q p : FPath} (hne : q ≠ p) (h : q <+: p) : q <+: p.dropLast := by
  obtain ⟨r, hr⟩ := h
  cases hre : r with
  | nil => subst hre; simp at hr; exact absurd hr hne
  | cons a t =>
    subst hre
    have : (q ++ a :: t).dropLast = q ++ (a :: t).dropLast := by
      rw [ List.dropLast_append_of_ne_nil]
      simp
    rw [← hr, this]
    exact ⟨(a :: t).dropLast, rfl⟩

theorem lookupFS_cons (k : FPath) (e : Entry) (fs : FS) (p : FPath) :
    lookupFS ((k, e) :: fs) p = if k = p then some e else lookupFS fs p := rfl

theorem lookupFS_append_some (a b : FS) (p : FPath) (e : Entry)
    (h : lookupFS a p = some e) : lookupFS (a ++ b) p = some e := by
  induction a with
  | nil => cases h
  | cons x t ih =>
    obtain ⟨q, v⟩ := x
    by_cases hq : q = p
    · simp [lookupFS, hq] at h ⊢
      exact h
    · simp [lookupFS, hq] at h ⊢
      exact ih h

theorem lookupFS_append_none (a b : FS) (p : FPath)
    (h : lookupFS a p = none) : lookupFS (a ++ b) p = lookupFS b p := by
  induction a with
  | nil => rfl
  | cons x t ih =>
    obtain ⟨q, v⟩ := x
    by_cases hq : q = p
    · simp [lookupFS, hq] at h
    · simp [lookupFS, hq] at h ⊢
      exact ih h

theorem ensureDir_lookup (fs : FS) (p q : FPath) :
    lookupFS (ensureDir fs p) q =
      if q = p then ensOpt (lookupFS fs p) else lookupFS fs q := by
  unfold ensureDir
  by_cases hq : q = p
  · subst hq
    cases hl : lookupFS fs q with
    | none => simp [hl, lookupFS_cons, ensOpt]
    | some e => simp [hl, ensOpt]
  · cases hl : lookupFS fs p with
    | none =>
      have hpq : p ≠ q := fun h => hq h.symm
      simp [hl, hq, lookupFS_cons, hpq]
    | some e => simp [hl, hq]

theorem mkdirParentsAux_lookup (n : Nat) : ∀ (p : FPath), p.length ≤ n →
    ∀ (fs : FS) (q : FPath),
    lookupFS (mkdirParentsAux fs n p) q =
      if q <+: p then ensOpt (lookupFS fs q) else lookupFS fs q := by
  induction n with
  | zero =>
    intro p hp fs q
    have hpn : p = [] := List.length_eq_zero.mp (Nat.le_zero.mp hp)
    subst hpn
    rw [show mkdirParentsAux fs 0 [] = ensureDir fs [] from rfl]
    rw [ensureDir_lookup]
    by_cases hq : q = ([] : FPath)
    · simp [hq, List.prefix_rfl]
    · have : ¬ q <+: ([] : FPath) := fun h => hq (List.eq_nil_of_prefix_nil h)
      simp [hq, this]
  | succ m ih =>
    intro p hp fs q
    cases p with
    | nil =>
      rw [show mkdirParentsAux fs (m + 1) [] = ensureDir fs [] from rfl]
      rw [ensureDir_lookup]
      by_cases hq : q = ([] : FPath)
      · simp [hq, List.prefix_rfl]
      · have : ¬ q <+: ([] : FPath) := fun h => hq (List.eq_nil_of_prefix_nil h)
        simp [hq, this]
    | cons a t =>
      rw [show mkdirParentsAux fs (m + 1) (a :: t) =
        ensureDir (mkdirParentsAux fs m (a :: t).dropLast) (a :: t) from rfl]
      have hd : (a :: t).dropLast.length ≤ m := by
        simp only [List.length_dropLast, List.length_cons] at *
        omega
      rw [ensureDir_lookup, ih _ hd, ih _ hd]
      by_cases hq : q = a :: t
      · have hnp : ¬ (a :: t) <+: (a :: t).dropLast := by
          intro h
          have hle := h.length_le
          simp only [List.length_dropLast, List.length_cons] at hle
          omega
        simp [hq, hnp, List.prefix_rfl]
      · have hiff : q <+: (a :: t).dropLast ↔ q <+: a :: t := by
          constructor
          · intro h
            exact h.trans ( List.dropLast_prefix (a :: t))
          · intro h
            exact pref_dropLast hq h
        by_cases hqp : q <+: a :: t
        · simp [hq, hqp, hiff.mpr hqp]
        · have : ¬ q <+: (a :: t).dropLast := fun h => hqp (hiff.mp h)
          simp [hq, hqp, this]

theorem mkdirParents_lookup (fs : FS) (p q : FPath) :
    lookupFS (mkdirParents fs p) q =
      if q <+: p then ensOpt (lookupFS fs q) else lookupFS fs q :=
  mkdirParentsAux_lookup p.length p (Nat.le_refl _) fs q

theorem copied_lookup (fs : FS) (s dest p : FPath) :
    lookupFS (fs.filterMap (fun pe =>
      if s.isPrefixOf pe.1 then some (dest ++ pe.1.drop s.length, pe.2) else none)) p =
      if dest.isPrefixOf p then lookupFS fs (s ++ p.drop dest.length) else none := by
  induction fs with
  | nil =>
    simp only [List.filterMap_nil, lookupFS]
    split <;> rfl
  | cons x t ih =>
    obtain ⟨q, e⟩ := x
    by_cases hsq : s.isPrefixOf q
    · obtain ⟨r, hr⟩ : s <+: q := List.isPrefixOf_iff_prefix.mp hsq
      have hqdrop : q.drop s.length = r := by rw [← hr, List.drop_left]
      simp only [List.filterMap_cons, hsq, if_true, lookupFS_cons]
      by_cases hdp : dest.isPrefixOf p
      · obtain ⟨w, hw⟩ : dest <+: p := List.isPrefixOf_iff_prefix.mp hdp
        have hpdrop : p.drop dest.length = w := by rw [← hw, List.drop_left]
        simp only [hdp, if_true, lookupFS_cons] at ih ⊢
        have hkey : (dest ++ q.drop s.length = p) ↔ (q = s ++ p.drop dest.length) := by
          rw [hqdrop, hpdrop, ← hw, ← hr]
          constructor
          · intro h
            rw [List.append_cancel_left h]
          · intro h
            rw [List.append_cancel_left h]
        by_cases hk : dest ++ q.drop s.length = p
        · rw [if_pos hk, if_pos (hkey.mp hk)]
        · rw [if_neg hk, if_neg (fun h => hk (hkey.mpr h)), ih]
      · have hk : dest ++ q.drop s.length ≠ p := by
          intro h
          exact hdp (List.isPrefixOf_iff_prefix.mpr ⟨q.drop s.length, h⟩)
        simp only [hdp, if_false] at ih
        rw [if_neg hk, ih]
        simp [hdp]
    · simp only [List.filterMap_cons, if_neg hsq]
      by_cases hdp : dest.isPrefixOf p
      · obtain ⟨w, hw⟩ : dest <+: p := List.isPrefixOf_iff_prefix.mp hdp
        have hpdrop : p.drop dest.length = w := by rw [← hw, List.drop_left]
        simp only [hdp, if_true] at ih ⊢
        rw [ih, lookupFS_cons]
        have hq : q ≠ s ++ p.drop dest.length := by
          intro h
          exact hsq (List.isPrefixOf_iff_prefix.mpr ⟨p.drop dest.length, h.symm⟩)
        rw [if_neg hq]
      · simp only [hdp, if_false] at ih ⊢
        exact ih

theorem copytree_lookup_hit (fs : FS) (s dest p : FPath) (e : Entry)
    (hdp : dest.isPrefixOf p = true) (h : lookupFS fs (s ++ p.drop dest.length) = some e) :
    lookupFS (copytree fs s dest) p = some e := by
  unfold copytree
  apply lookupFS_append_some
  rw [copied_lookup, if_pos hdp, h]

theorem copytree_lookup_miss (fs : FS) (s dest p : FPath)
    (h : (if dest.isPrefixOf p then lookupFS fs (s ++ p.drop dest.length) else none) = none) :
    lookupFS (copytree fs s dest) p = lookupFS (mkdirParents fs dest) p := by
  unfold copytree
  apply lookupFS_append_none
  rw [copied_lookup, h]

theorem copy2_lookup (fs : FS) (src dest p : FPath) (d : FileData)
    (h : lookupFS fs src = some (.file d)) :
    lookupFS (copy2 fs src dest) p = if dest = p then some (.file d) else lookupFS fs p := by
  unfold copy2
  rw [h, lookupFS_cons]

theorem srcPart_lookup (S : List FPath) (fs : FS) (q : FPath) (h : inRegion S q = true) :
    lookupFS (srcPart S fs) q = lookupFS fs q := by
  induction fs with
  | nil => rfl
  | cons x t ih =>
    obtain ⟨k, e⟩ := x
    by_cases hk : k = q
    · subst hk
      simp [srcPart, List.filter_cons, h, lookupFS_cons]
    · by_cases hr : inRegion S k
      · simp [srcPart, List.filter_cons, hr, lookupFS_cons, hk]
        simpa [srcPart] using ih
      · simp only [srcPart, List.filter_cons] at ih ⊢
        simp only [hr, Bool.false_eq_true, if_false]
        rw [ih, lookupFS_cons, if_neg hk]

theorem ensOpt_isSome (x : Option Entry) : (ensOpt x).isSome = true := by
  cases x <;> rfl

theorem notInRegion {S : List FPath} {q : FPath} (h : ∀ s ∈ S, ¬ s <+: q) :
    inRegion S q = false := by
  by_contra hc
  have ht : inRegion S q = true := by
    cases hb : inRegion S q
    · exact absurd hb hc
    · rfl
  rw [inRegion, List.any_eq_true] at ht
  obtain ⟨s, hs, hp⟩ := ht
  exact h s hs (List.isPrefixOf_iff_prefix.mp hp)

theorem inRegion_of_mem_pref {S : List FPath} {s q : FPath} (hs : s ∈ S) (h : s <+: q) :
    inRegion S q = true := by
  rw [inRegion, List.any_eq_true]
  exact ⟨s, hs, List.isPrefixOf_iff_prefix.mpr h⟩

theorem inRegion_droot_ext (S : List FPath) (droot : FPath) (z : List String)
    (H2 : ∀ t ∈ S, ¬ t <+: droot ∧ ¬ droot <+: t) : inRegion S (droot ++ z) = false := by
  apply notInRegion
  intro s hs hp
  obtain ⟨y, hy⟩ := hp
  rcases pref_of_append hy.symm with h | h
  · exact (H2 s hs).2 h
  · exact (H2 s hs).1 h

theorem inRegion_droot_anc (S : List FPath) (droot r : FPath)
    (H2 : ∀ t ∈ S, ¬ t <+: droot ∧ ¬ droot <+: t) (hr : r <+: droot) :
    inRegion S r = false := by
  apply notInRegion
  intro s hs hp
  exact (H2 s hs).1 (hp.trans hr)

theorem srcPart_cons_out (S : List FPath) (fs : FS) (k : FPath) (e : Entry)
    (h : inRegion S k = false) : srcPart S ((k, e) :: fs) = srcPart S fs := by
  simp [srcPart, List.filter_cons, h]

theorem srcPart_ensureDir (S : List FPath) (fs : FS) (p : FPath)
    (h : inRegion S p = false) : srcPart S (ensureDir fs p) = srcPart S fs := by
  unfold ensureDir
  split
  · rfl
  · exact srcPart_cons_out S fs p Entry.dir h

theorem srcPart_mkdirParentsAux (n : Nat) : ∀ (p : FPath), p.length ≤ n →
    ∀ (S : List FPath) (fs : FS), (∀ r, r <+: p → inRegion S r = false) →
    srcPart S (mkdirParentsAux fs n p) = srcPart S fs := by
  induction n with
  | zero =>
    intro p hp S fs h
    have hpn : p = [] := List.length_eq_zero.mp (Nat.le_zero.mp hp)
    subst hpn
    rw [show mkdirParentsAux fs 0 [] = ensureDir fs [] from rfl]
    exact srcPart_ensureDir S fs [] (h [] List.nil_prefix )
  | succ m ih =>
    intro p hp S fs h
    cases p with
    | nil =>
      rw [show mkdirParentsAux fs (m + 1) [] = ensureDir fs [] from rfl]
      exact srcPart_ensureDir S fs [] (h [] List.nil_prefix )
    | cons a t =>
      rw [show mkdirParentsAux fs (m + 1) (a :: t) =
        ensureDir (mkdirParentsAux fs m (a :: t).dropLast) (a :: t) from rfl]
      have hd : (a :: t).dropLast.length ≤ m := by
        simp only [List.length_dropLast, List.length_cons]
        simp only [List.length_cons] at hp
        omega
      rw [srcPart_ensureDir S _ _ (h _ List.prefix_rfl)]
      exact ih _ hd S fs (fun r hr => h r (hr.trans ( List.dropLast_prefix _)))

theorem srcPart_mkdirParents (S : List FPath) (fs : FS) (p : FPath)
    (h : ∀ r, r <+: p → inRegion S r = false) :
    srcPart S (mkdirParents fs p) = srcPart S fs :=
  srcPart_mkdirParentsAux p.length p (Nat.le_refl _) S fs h

theorem srcPart_copy2 (S : List FPath) (fs : FS) (src dest : FPath)
    (h : inRegion S dest = false) : srcPart S (copy2 fs src dest) = srcPart S fs := by
  unfold copy2
  cases hl : lookupFS fs src with
  | none => rfl
  | some e =>
    cases e with
    | file d => exact srcPart_cons_out S fs dest _ h
    | dir => rfl

theorem srcPart_copied_nil (S : List FPath) (fs : FS) (s dest : FPath)
    (h : ∀ y, inRegion S (dest ++ y) = false) :
    srcPart S (fs.filterMap (fun pe =>
      if s.isPrefixOf pe.1 then some (dest ++ pe.1.drop s.length, pe.2) else none)) = [] := by
  induction fs with
  | nil => rfl
  | cons x t ih =>
    obtain ⟨q, e⟩ := x
    by_cases hsq : s.isPrefixOf q
    · simp only [List.filterMap_cons, if_pos hsq]
      rw [srcPart_cons_out _ _ _ _ (h _)]
      exact ih
    · simp only [List.filterMap_cons, if_neg hsq]
      exact ih

theorem srcPart_copytree (S : List FPath) (fs : FS) (s dest : FPath)
    (hks : ∀ y, inRegion S (dest ++ y) = false)
    (hanc : ∀ r, r <+: dest → inRegion S r = false) :
    srcPart S (copytree fs s dest) = srcPart S fs := by
  unfold copytree
  have happ : srcPart S ((fs.filterMap (fun pe =>
      if s.isPrefixOf pe.1 then some (dest ++ pe.1.drop s.length, pe.2) else none)) ++
      mkdirParents fs dest) =
      srcPart S (fs.filterMap (fun pe =>
        if s.isPrefixOf pe.1 then some (dest ++ pe.1.drop s.length, pe.2) else none)) ++
      srcPart S (mkdirParents fs dest) := List.filter_append _ _
  rw [happ, srcPart_copied_nil S fs s dest hks, srcPart_mkdirParents S fs dest hanc]
  simp

theorem lookup_isSome_cons (k : FPath) (e : Entry) (fs : FS) (p : FPath)
    (h : (lookupFS fs p).isSome = true) : (lookupFS ((k, e) :: fs) p).isSome = true := by
  rw [lookupFS_cons]
  split <;> simp [h]

theorem mkdirParents_mono (fs : FS) (p q : FPath)
    (h : (lookupFS fs q).isSome = true) :
    (lookupFS (mkdirParents fs p) q).isSome = true := by
  rw [mkdirParents_lookup]
  split
  · exact ensOpt_isSome _
  · exact h

theorem copy2_mono (fs : FS) (src dest p : FPath)
    (h : (lookupFS fs p).isSome = true) : (lookupFS (copy2 fs src dest) p).isSome = true := by
  unfold copy2
  cases hl : lookupFS fs src with
  | none => exact h
  | some e =>
    cases e with
    | file d => exact lookup_isSome_cons _ _ _ _ h
    | dir => exact h

theorem copytree_mono (fs : FS) (s dest p : FPath)
    (h : (lookupFS fs p).isSome = true) :
    (lookupFS (copytree fs s dest) p).isSome = true := by
  unfold copytree
  cases hc : lookupFS (fs.filterMap (fun pe =>
      if s.isPrefixOf pe.1 then some (dest ++ pe.1.drop s.length, pe.2) else none)) p with
  | some e => rw [lookupFS_append_some _ _ _ _ hc]; rfl
  | none => rw [lookupFS_append_none _ _ _ hc]; exact mkdirParents_mono fs dest p h

theorem copy_with_structure_mono (fs : FS) (src droot proot p : FPath) (fs2 : FS)
    (h : copy_with_structure fs src droot proot = .ok fs2)
    (hp : (lookupFS fs p).isSome = true) : (lookupFS fs2 p).isSome = true := by
  unfold copy_with_structure at h
  cases hrel : relativeTo src proot with
  | error e => rw [hrel] at h; simp at h
  | ok rel =>
    rw [hrel] at h
    have hh : (if isDirB fs src = true then Except.ok (copytree fs src (droot ++ rel))
        else if isFileB fs src = true then
          Except.ok (copy2 (mkdirParents fs (List.dropLast (droot ++ rel))) src (droot ++ rel))
        else Except.ok fs) = Except.ok fs2 := h
    by_cases hdir : isDirB fs src = true
    · rw [if_pos hdir] at hh
      cases hh
      exact copytree_mono fs src (droot ++ rel) p hp
    · rw [if_neg hdir] at hh
      by_cases hfile : isFileB fs src = true
      · rw [if_pos hfile] at hh
        cases hh
        exact copy2_mono _ src (droot ++ rel) p (mkdirParents_mono fs _ p hp)
      · rw [if_neg hfile] at hh
        cases hh
        exact hp

theorem collectorStep_mono (proot droot : FPath) (fs : FS) (src : FPath) (fs2 : FS)
    (line : String) (h : collectorStep proot droot fs src = .ok (fs2, line)) (p : FPath)
    (hp : (lookupFS fs p).isSome = true) : (lookupFS fs2 p).isSome = true := by
  unfold collectorStep at h
  by_cases hex : pathExists fs src = true
  · rw [if_pos hex] at h
    cases hcw : copy_with_structure fs src droot proot with
    | error e => rw [hcw] at h; simp at h
    | ok fs3 =>
      rw [hcw] at h
      have hh : (Except.ok (fs3, copiedLine src) : Except Unit (FS × String)) =
          Except.ok (fs2, line) := h
      cases hh
      exact copy_with_structure_mono fs src droot proot p _ hcw hp
  · rw [if_neg hex] at h
    cases h
    exact hp

theorem collectorLoop_err (proot droot : FPath) (L : List FPath) (s : FPath) :
    ∀ fs, s ∈ L → pathExists fs s = true → ¬ proot <+: s →
    collectorLoop proot droot fs L = .error () := by
  induction L with
  | nil => intro fs hs _ _; cases hs
  | cons a t ih =>
    intro fs hs hex hnp
    by_cases has : a = s
    · subst has
      have hstep : collectorStep proot droot fs a = .error () := by
        unfold collectorStep copy_with_structure relativeTo
        rw [if_pos hex]
        have hb : proot.isPrefixOf a = false := by
          cases hb : proot.isPrefixOf a
          · rfl
          · exact absurd (List.isPrefixOf_iff_prefix.mp hb) hnp
        rw [hb]
        rfl
      simp [collectorLoop, hstep]
    · cases hstep : collectorStep proot droot fs a with
      | error e =>
        cases e
        simp [collectorLoop, hstep]
      | ok pr =>
        obtain ⟨fs2, line⟩ := pr
        have hs2 : s ∈ t := by
          rcases List.mem_cons.mp hs with h | h
          · exact absurd h.symm has
          · exact h
        have hex2 : pathExists fs2 s = true :=
          collectorStep_mono proot droot fs a fs2 line hstep s hex
        simp only [collectorLoop, hstep]
        rw [ih fs2 hs2 hex2 hnp]

/-- Claim C6: a source that exists but is not a descendant of the project
root makes `relative_to` raise an uncaught `ValueError`, aborting the
whole run with a fatal error (non-zero exit status); the condition is not
handled anywhere in the script. -/
theorem claim_C6 (S : List FPath) (proot droot : FPath) (fs : FS) (s : FPath)
    (hs : s ∈ S) (hex : pathExists fs s = true) (hnp : ¬ proot <+: s) :
    runCollector S proot droot fs = .error () := by
  unfold runCollector
  have hex2 : pathExists (mkdirParents fs droot) s = true :=
    mkdirParents_mono fs droot s hex
  rw [collectorLoop_err proot droot S s _ hs hex2 hnp]

theorem claim_C6_witness :
    (["x", "a"] : FPath) ∈ [(["x", "a"] : FPath)] ∧
    pathExists [((["x", "a"] : FPath), Entry.dir)] ["x", "a"] = true ∧
    ¬ (["r"] : FPath) <+: ["x", "a"] ∧
    runCollector [(["x", "a"] : FPath)] ["r"] ["d"]
      [((["x", "a"] : FPath), Entry.dir)] = .error () :=
  ⟨by decide, by decide, by decide,
    claim_C6 _ ["r"] ["d"] _ ["x", "a"] (by decide) (by decide) (by decide)⟩

theorem CEI_id : CEI (fun x => x) := Or.inr (Or.inl (fun _ => rfl))

theorem CEI_comp {g h : Option Entry → Option Entry} (hg : CEI g) (hh : CEI h) :
    CEI (fun x => g (h x)) := by
  rcases hg with ⟨v, hv⟩ | hgid | hgens
  · exact Or.inl ⟨v, fun x => hv _⟩
  · rcases hh with ⟨v, hv⟩ | hhid | hhens
    · exact Or.inl ⟨v, fun x => by show g (h x) = some v; rw [hv, hgid]⟩
    · exact Or.inr (Or.inl (fun x => by show g (h x) = x; rw [hhid, hgid]))
    · exact Or.inr (Or.inr (fun x => by show g (h x) = ensOpt x; rw [hhens, hgid]))
  · rcases hh with ⟨v, hv⟩ | hhid | hhens
    · refine Or.inl ⟨v, fun x => ?_⟩
      show g (h x) = some v
      rw [hv, hgens]
      rfl
    · exact Or.inr (Or.inr (fun x => by show g (h x) = ensOpt x; rw [hhid, hgens]))
    · refine Or.inr (Or.inr (fun x => ?_))
      show g (h x) = ensOpt x
      rw [hhens, hgens]
      cases x <;> rfl

theorem CEI_idem {h : Option Entry → Option Entry} (hh : CEI h) (x : Option Entry) :
    h (h x) = h x := by
  rcases hh with ⟨v, hv⟩ | hid | hens
  · rw [hv, hv]
  · rw [hid, hid]
  · rw [hens, hens]
    cases x <;> rfl

theorem WritesAt_id (σ : FS) (proot droot p : FPath) :
    WritesAt σ proot droot p (fun x => x) := fun _ => Or.inl rfl

theorem WritesAt_comp {σ : FS} {proot droot p : FPath}
    {g h : Option Entry → Option Entry}
    (hg : WritesAt σ proot droot p g) (hh : WritesAt σ proot droot p h) :
    WritesAt σ proot droot p (fun x => g (h x)) := by
  intro x
  have hcx : (fun y => g (h y)) x = g (h x) := rfl
  rcases hh x with h1 | ⟨h1, h2⟩ | ⟨h1, h2, h3⟩
  · rw [hcx, h1]
    exact hg x
  · rcases hg (h x) with g1 | ⟨g1, g2⟩ | ⟨g1, g2, g3⟩
    · refine Or.inr (Or.inl ⟨h1, ?_⟩)
      rw [hcx, g1, h2]
    · rw [h2] at g1
      cases g1
    · refine Or.inr (Or.inr ⟨g1, ?_, g3⟩)
      rw [hcx]
      exact g2
  · rcases hg (h x) with g1 | ⟨g1, g2⟩ | ⟨g1, g2, g3⟩
    · refine Or.inr (Or.inr ⟨h1, ?_, h3⟩)
      rw [hcx, g1, h2]
    · rw [h2] at g1
      rw [g1] at h3
      cases h3
    · refine Or.inr (Or.inr ⟨g1, ?_, g3⟩)
      rw [hcx]
      exact g2

theorem touch_comp {σ : FS} {S : List FPath} {proot droot p : FPath}
    {g h : Option Entry → Option Entry}
    (hg : (∀ x, g x = x) ∨ TouchCond σ S proot droot p)
    (hh : (∀ x, h x = x) ∨ TouchCond σ S proot droot p) :
    (∀ x, (fun y => g (h y)) x = x) ∨ TouchCond σ S proot droot p := by
  rcases hg with hg | hg
  · rcases hh with hh | hh
    · refine Or.inl (fun x => ?_)
      show g (h x) = x
      rw [hh, hg]
    · exact Or.inr hh
  · exact Or.inr hg

theorem pref_split {r droot rel : FPath} (h : r <+: droot ++ rel) :
    r <+: droot ∨ ∃ z, r = droot ++ z := by
  rcases List.prefix_or_prefix_of_prefix h ( List.prefix_append droot rel) with h1 | h1
  · exact Or.inl h1
  · obtain ⟨z, hz⟩ := h1
    exact Or.inr ⟨z, hz.symm⟩

theorem step_effect (S : List FPath) (σ : FS) (proot droot : FPath) (s : FPath) (hs : s ∈ S)
    (H1 : ∀ t ∈ S, (lookupFS σ t).isSome = true → proot <+: t)
    (H2 : ∀ t ∈ S, ¬ t <+: droot ∧ ¬ droot <+: t) (p : FPath) :
    ∃ h, CEI h ∧ WritesAt σ proot droot p h ∧
      ((∀ x, h x = x) ∨ TouchCond σ S proot droot p) ∧
      (((lookupFS σ s).isSome = true ∧ p = droot ++ s.drop proot.length) →
        ∀ x, h x = lookupFS σ s) ∧
      (∀ fs, srcPart S fs = σ → ∃ fs2,
        collectorStep proot droot fs s = .ok (fs2, stepLine σ s) ∧
        srcPart S fs2 = σ ∧ lookupFS fs2 p = h (lookupFS fs p)) := by
  have hreglkp : ∀ (fs : FS), srcPart S fs = σ → ∀ q, s <+: q →
      lookupFS fs q = lookupFS σ q := by
    intro fs hfs q hq
    rw [← hfs, srcPart_lookup S fs q (inRegion_of_mem_pref hs hq)]
  cases hσs : lookupFS σ s with
  | none =>
    refine ⟨fun x => x, CEI_id, WritesAt_id σ proot droot p, Or.inl (fun _ => rfl), ?_, ?_⟩
    · rintro ⟨hsome, -⟩
      simp at hsome
    · intro fs hfs
      have hex : pathExists fs s = false := by
        unfold pathExists
        rw [hreglkp fs hfs s List.prefix_rfl, hσs]
        rfl
      refine ⟨fs, ?_, hfs, rfl⟩
      unfold collectorStep stepLine
      rw [hex, hσs]
      rfl
  | some entry =>
    have hsome : (lookupFS σ s).isSome = true := by rw [hσs]; rfl
    have hproot : proot <+: s := H1 s hs hsome
    have hbpre : proot.isPrefixOf s = true := List.isPrefixOf_iff_prefix.mpr hproot
    obtain ⟨rel0, hrel0⟩ := hproot
    have hdrop : s.drop proot.length = rel0 := by rw [← hrel0, List.drop_left]
    have hsrel : proot ++ s.drop proot.length = s := by rw [hdrop, hrel0]
    have hrelstep : relativeTo s proot = .ok (s.drop proot.length) := by
      unfold relativeTo
      rw [if_pos hbpre]
    have hreg_ext : ∀ y, inRegion S ((droot ++ s.drop proot.length) ++ y) = false := by
      intro y
      rw [List.append_assoc]
      exact inRegion_droot_ext S droot _ H2
    have hreg_anc : ∀ r, r <+: droot ++ s.drop proot.length → inRegion S r = false := by
      intro r hr
      rcases pref_split hr with h1 | ⟨z, hz⟩
      · exact inRegion_droot_anc S droot r H2 h1
      · subst hz
        exact inRegion_droot_ext S droot z H2
    have hsnotunder : ∀ r, r <+: droot ++ s.drop proot.length → ¬ s <+: r := by
      intro r hr hsr
      have := inRegion_of_mem_pref hs hsr
      rw [hreg_anc r hr] at this
      cases this
    cases entry with
    | dir =>
      have hcommon : ∀ fs, srcPart S fs = σ → ∃ fs2,
          collectorStep proot droot fs s = .ok (fs2, stepLine σ s) ∧ srcPart S fs2 = σ ∧
          fs2 = copytree fs s (droot ++ s.drop proot.length) := by
        intro fs hfs
        have hex : pathExists fs s = true := by
          unfold pathExists
          rw [hreglkp fs hfs s List.prefix_rfl, hσs]
          rfl
        have hdir : isDirB fs s = true := by
          unfold isDirB
          rw [hreglkp fs hfs s List.prefix_rfl, hσs]
        have hcw : copy_with_structure fs s droot proot =
            .ok (copytree fs s (droot ++ s.drop proot.length)) := by
          unfold copy_with_structure
          rw [hrelstep]
          show (if isDirB fs s = true then Except.ok (copytree fs s (droot ++ s.drop proot.length))
            else if isFileB fs s = true then
              Except.ok (copy2 (mkdirParents fs (List.dropLast (droot ++ s.drop proot.length)))
                s (droot ++ s.drop proot.length))
            else Except.ok fs) = Except.ok (copytree fs s (droot ++ s.drop proot.length))
          rw [if_pos hdir]
        refine ⟨_, ?_, ?_, rfl⟩
        · unfold collectorStep stepLine
          rw [if_pos hex, hcw, hσs]
          rfl
        · rw [srcPart_copytree S fs s _ hreg_ext hreg_anc, hfs]
      by_cases hdp : (droot ++ s.drop proot.length).isPrefixOf p = true
      · obtain ⟨w, hw⟩ : (droot ++ s.drop proot.length) <+: p :=
          List.isPrefixOf_iff_prefix.mp hdp
        have hpw : p.drop (droot ++ s.drop proot.length).length = w := by
          rw [← hw, List.drop_left]
        have hkey : proot ++ p.drop droot.length = s ++ w := by
          rw [← hw, List.append_assoc, List.drop_left, ← List.append_assoc, hsrel]
        cases hhit : lookupFS σ (s ++ w) with
        | some e =>
          refine ⟨fun _ => some e, Or.inl ⟨e, fun _ => rfl⟩, ?_, ?_, ?_, ?_⟩
          · intro x
            refine Or.inr (Or.inr ⟨( List.prefix_append droot _).trans ⟨w, hw⟩, ?_, ?_⟩)
            · rw [hkey, hhit]
            · rw [hkey, hhit]
              rfl
          · refine Or.inr (Or.inr (Or.inr ⟨( List.prefix_append droot _).trans ⟨w, hw⟩, ?_⟩))
            rw [hkey, hhit]
            rfl
          · rintro ⟨-, hp⟩
            intro x
            have hwnil : w = [] := by
              rw [hp] at hw
              have hlen := congrArg List.length hw
              simp only [List.length_append] at hlen
              exact List.length_eq_zero.mp (by omega)
            subst hwnil
            rw [List.append_nil] at hhit
            rw [hσs] at hhit
            cases hhit
            rfl
          · intro fs hfs
            obtain ⟨fs2, hstep, hsp, hfs2⟩ := hcommon fs hfs
            refine ⟨fs2, hstep, hsp, ?_⟩
            rw [hfs2]
            rw [copytree_lookup_hit fs s _ p e hdp ?_]
            rw [hpw, hreglkp fs hfs (s ++ w) ( List.prefix_append s w), hhit]
        | none =>
          refine ⟨fun x => x, CEI_id, WritesAt_id σ proot droot p, Or.inl (fun _ => rfl), ?_, ?_⟩
          · rintro ⟨-, hp⟩
            exfalso
            rw [hp] at hw
            have hlen := congrArg List.length hw
            simp only [List.length_append] at hlen
            have hwnil : w = [] := List.length_eq_zero.mp (by omega)
            rw [hwnil, List.append_nil, hσs] at hhit
            cases hhit
          · intro fs hfs
            obtain ⟨fs2, hstep, hsp, hfs2⟩ := hcommon fs hfs
            refine ⟨fs2, hstep, hsp, ?_⟩
            rw [hfs2]
            rw [copytree_lookup_miss fs s _ p ?_]
            · rw [mkdirParents_lookup, if_neg ?_]
              intro hpd2
              have hpeq : p = droot ++ s.drop proot.length := pref_antisymm hpd2 ⟨w, hw⟩
              rw [hpeq] at hw
              have hlen := congrArg List.length hw
              simp only [List.length_append] at hlen
              have hwnil : w = [] := List.length_eq_zero.mp (by omega)
              rw [hwnil, List.append_nil, hσs] at hhit
              cases hhit
            · rw [if_pos hdp, hpw, hreglkp fs hfs (s ++ w) ( List.prefix_append s w), hhit]
      · by_cases hpd : p <+: droot ++ s.drop proot.length
        · refine ⟨fun x => ensOpt x, Or.inr (Or.inr (fun _ => rfl)), ?_, ?_, ?_, ?_⟩
          · intro x
            cases x with
            | none => exact Or.inr (Or.inl ⟨rfl, rfl⟩)
            | some e => exact Or.inl rfl
          · exact Or.inr (Or.inr (Or.inl ⟨s, hs, hsome, hpd⟩))
          · rintro ⟨-, hp⟩
            exact absurd (by rw [hp]; exact List.isPrefixOf_iff_prefix.mpr List.prefix_rfl) hdp
          · intro fs hfs
            obtain ⟨fs2, hstep, hsp, hfs2⟩ := hcommon fs hfs
            refine ⟨fs2, hstep, hsp, ?_⟩
            rw [hfs2]
            rw [copytree_lookup_miss fs s _ p (by rw [if_neg hdp])]
            rw [mkdirParents_lookup, if_pos hpd]
        · refine ⟨fun x => x, CEI_id, WritesAt_id σ proot droot p, Or.inl (fun _ => rfl), ?_, ?_⟩
          · rintro ⟨-, hp⟩
            exact absurd (by rw [hp]; exact List.isPrefixOf_iff_prefix.mpr List.prefix_rfl) hdp
          · intro fs hfs
            obtain ⟨fs2, hstep, hsp, hfs2⟩ := hcommon fs hfs
            refine ⟨fs2, hstep, hsp, ?_⟩
            rw [hfs2]
            rw [copytree_lookup_miss fs s _ p (by rw [if_neg hdp])]
            rw [mkdirParents_lookup, if_neg hpd]
    | file d =>
      have hcommon : ∀ fs, srcPart S fs = σ → ∃ fs2,
          collectorStep proot droot fs s = .ok (fs2, stepLine σ s) ∧ srcPart S fs2 = σ ∧
          lookupFS fs2 p = (if (droot ++ s.drop proot.length) = p then some (Entry.file d)
            else lookupFS (mkdirParents fs (List.dropLast (droot ++ s.drop proot.length))) p) := by
        intro fs hfs
        have hex : pathExists fs s = true := by
          unfold pathExists
          rw [hreglkp fs hfs s List.prefix_rfl, hσs]
          rfl
        have hdir : ¬ isDirB fs s = true := by
          unfold isDirB
          rw [hreglkp fs hfs s List.prefix_rfl, hσs]
          simp
        have hfile : isFileB fs s = true := by
          unfold isFileB
          rw [hreglkp fs hfs s List.prefix_rfl, hσs]
        have hsrcafter : lookupFS (mkdirParents fs
            (List.dropLast (droot ++ s.drop proot.length))) s = some (Entry.file d) := by
          rw [mkdirParents_lookup, if_neg ?_]
          · rw [hreglkp fs hfs s List.prefix_rfl, hσs]
          · intro hcontra
            exact hsnotunder _ ( List.dropLast_prefix _) hcontra
        have hcw : copy_with_structure fs s droot proot =
            .ok (copy2 (mkdirParents fs (List.dropLast (droot ++ s.drop proot.length))) s
              (droot ++ s.drop proot.length)) := by
          unfold copy_with_structure
          rw [hrelstep]
          show (if isDirB fs s = true then Except.ok (copytree fs s (droot ++ s.drop proot.length))
            else if isFileB fs s = true then
              Except.ok (copy2 (mkdirParents fs (List.dropLast (droot ++ s.drop proot.length)))
                s (droot ++ s.drop proot.length))
            else Except.ok fs) =
            Except.ok (copy2 (mkdirParents fs (List.dropLast (droot ++ s.drop proot.length))) s
              (droot ++ s.drop proot.length))
          rw [if_neg hdir, if_pos hfile]
        have hInR : inRegion S (droot ++ s.drop proot.length) = false := by
          have := hreg_ext []
          rwa [List.append_nil] at this
        have hanc2 : ∀ r, r <+: List.dropLast (droot ++ s.drop proot.length) →
            inRegion S r = false := by
          intro r hr
          exact hreg_anc r (hr.trans ( List.dropLast_prefix _))
        refine ⟨copy2 (mkdirParents fs (List.dropLast (droot ++ s.drop proot.length))) s
          (droot ++ s.drop proot.length), ?_, ?_, ?_⟩
        · unfold collectorStep stepLine
          rw [if_pos hex, hcw, hσs]
          rfl
        · rw [srcPart_copy2 S _ s _ hInR, srcPart_mkdirParents S fs _ hanc2]
          exact hfs
        · exact copy2_lookup _ s _ p d hsrcafter
      by_cases hp_dest : (droot ++ s.drop proot.length) = p
      · refine ⟨fun _ => some (Entry.file d), Or.inl ⟨Entry.file d, fun _ => rfl⟩, ?_, ?_, ?_, ?_⟩
        · intro x
          refine Or.inr (Or.inr ⟨?_, ?_, ?_⟩)
          · rw [← hp_dest]
            exact List.prefix_append droot _
          · rw [← hp_dest, List.drop_left, hsrel, hσs]
          · rw [← hp_dest, List.drop_left, hsrel, hσs]
            rfl
        · refine Or.inr (Or.inr (Or.inl ⟨s, hs, hsome, ?_⟩))
          rw [← hp_dest]
        · rintro ⟨-, -⟩
          intro x
          rfl
        · intro fs hfs
          obtain ⟨fs2, hstep, hsp, hlkp⟩ := hcommon fs hfs
          refine ⟨fs2, hstep, hsp, ?_⟩
          rw [hlkp, if_pos hp_dest]
      · by_cases hpd : p <+: List.dropLast (droot ++ s.drop proot.length)
        · refine ⟨fun x => ensOpt x, Or.inr (Or.inr (fun _ => rfl)), ?_, ?_, ?_, ?_⟩
          · intro x
            cases x with
            | none => exact Or.inr (Or.inl ⟨rfl, rfl⟩)
            | some e => exact Or.inl rfl
          · exact Or.inr (Or.inr (Or.inl ⟨s, hs, hsome, hpd.trans ( List.dropLast_prefix _)⟩))
          · rintro ⟨-, hp⟩
            exact absurd hp.symm hp_dest
          · intro fs hfs
            obtain ⟨fs2, hstep, hsp, hlkp⟩ := hcommon fs hfs
            refine ⟨fs2, hstep, hsp, ?_⟩
            rw [hlkp, if_neg hp_dest, mkdirParents_lookup, if_pos hpd]
        · refine ⟨fun x => x, CEI_id, WritesAt_id σ proot droot p, Or.inl (fun _ => rfl), ?_, ?_⟩
          · rintro ⟨-, hp⟩
            exact absurd hp.symm hp_dest
          · intro fs hfs
            obtain ⟨fs2, hstep, hsp, hlkp⟩ := hcommon fs hfs
            refine ⟨fs2, hstep, hsp, ?_⟩
            rw [hlkp, if_neg hp_dest, mkdirParents_lookup, if_neg hpd]

theorem pref_restore {proot t : FPath} (h : proot <+: t) :
    proot ++ t.drop proot.length = t := by
  obtain ⟨r, hr⟩ := h
  rw [← hr, List.drop_left]

theorem loop_effect (S : List FPath) (σ : FS) (proot droot : FPath)
    (H1 : ∀ t ∈ S, (lookupFS σ t).isSome = true → proot <+: t)
    (H2 : ∀ t ∈ S, ¬ t <+: droot ∧ ¬ droot <+: t) :
    ∀ (L : List FPath), (∀ t ∈ L, t ∈ S) → ∀ p,
    ∃ h, CEI h ∧ WritesAt σ proot droot p h ∧
      ((∀ x, h x = x) ∨ TouchCond σ S proot droot p) ∧
      (∀ fs, srcPart S fs = σ → ∃ fs2,
        collectorLoop proot droot fs L = .ok (fs2, L.map (stepLine σ)) ∧
        srcPart S fs2 = σ ∧ lookupFS fs2 p = h (lookupFS fs p)) := by
  intro L
  induction L with
  | nil =>
    intro _ p
    exact ⟨fun x => x, CEI_id, WritesAt_id σ proot droot p, Or.inl (fun _ => rfl),
      fun fs hfs => ⟨fs, rfl, hfs, rfl⟩⟩
  | cons a t ih =>
    intro hsub p
    obtain ⟨h1, hc1, hw1, ht1, hx1, hr1⟩ := step_effect S σ proot droot a
      (hsub a (List.mem_cons_self a t)) H1 H2 p
    obtain ⟨h2, hc2, hw2, ht2, hr2⟩ := ih (fun u hu => hsub u (List.mem_cons_of_mem a hu)) p
    refine ⟨fun x => h2 (h1 x), CEI_comp hc2 hc1, WritesAt_comp hw2 hw1,
      touch_comp ht2 ht1, ?_⟩
    intro fs hfs
    obtain ⟨fsa, hstep, hspa, hla⟩ := hr1 fs hfs
    obtain ⟨fsb, hloop, hspb, hlb⟩ := hr2 fsa hspa
    refine ⟨fsb, ?_, hspb, ?_⟩
    · simp only [collectorLoop, hstep, hloop, List.map_cons]
    · rw [hlb, hla]

theorem run_effect (S : List FPath) (σ : FS) (proot droot : FPath)
    (H1 : ∀ t ∈ S, (lookupFS σ t).isSome = true → proot <+: t)
    (H2 : ∀ t ∈ S, ¬ t <+: droot ∧ ¬ droot <+: t) (p : FPath) :
    ∃ h, CEI h ∧ WritesAt σ proot droot p h ∧
      ((∀ x, h x = x) ∨ TouchCond σ S proot droot p) ∧
      (∀ fs, srcPart S fs = σ → ∃ fs2,
        runCollector S proot droot fs =
          .ok (fs2, S.map (stepLine σ) ++ [doneLine droot]) ∧
        srcPart S fs2 = σ ∧ lookupFS fs2 p = h (lookupFS fs p)) := by
  obtain ⟨h2, hc2, hw2, ht2, hr2⟩ := loop_effect S σ proot droot H1 H2 S (fun t ht => ht) p
  have hmk : ∀ fs, srcPart S fs = σ → srcPart S (mkdirParents fs droot) = σ := by
    intro fs hfs
    rw [srcPart_mkdirParents S fs droot (fun r hr => inRegion_droot_anc S droot r H2 hr)]
    exact hfs
  by_cases hpd : p <+: droot
  · refine ⟨fun x => h2 (ensOpt x), CEI_comp hc2 (Or.inr (Or.inr (fun _ => rfl))),
      WritesAt_comp hw2 ?_, Or.inr ?_, ?_⟩
    · intro x
      cases x with
      | none => exact Or.inr (Or.inl ⟨rfl, rfl⟩)
      | some e => exact Or.inl rfl
    · exact Or.inl hpd
    · intro fs hfs
      obtain ⟨fs2, hloop, hsp, hlk⟩ := hr2 (mkdirParents fs droot) (hmk fs hfs)
      refine ⟨fs2, ?_, hsp, ?_⟩
      · unfold runCollector
        rw [hloop]
      · rw [hlk, mkdirParents_lookup, if_pos hpd]
  · refine ⟨h2, hc2, hw2, ht2, ?_⟩
    intro fs hfs
    obtain ⟨fs2, hloop, hsp, hlk⟩ := hr2 (mkdirParents fs droot) (hmk fs hfs)
    refine ⟨fs2, ?_, hsp, ?_⟩
    · unfold runCollector
      rw [hloop]
    · rw [hlk, mkdirParents_lookup, if_neg hpd]

theorem collectorLoop_append (proot droot : FPath) (L1 L2 : List FPath) :
    ∀ fs, collectorLoop proot droot fs (L1 ++ L2) =
      match collectorLoop proot droot fs L1 with
      | .error e => .error e
      | .ok (fs1, o1) =>
        match collectorLoop proot droot fs1 L2 with
        | .error e => .error e
        | .ok (fs2, o2) => .ok (fs2, o1 ++ o2) := by
  induction L1 with
  | nil =>
    intro fs
    cases h : collectorLoop proot droot fs L2 with
    | error e => simp [collectorLoop, h]
    | ok pr =>
      obtain ⟨fs2, o2⟩ := pr
      simp [collectorLoop, h]
  | cons a t ih =>
    intro fs
    cases hstep : collectorStep proot droot fs a with
    | error e => simp [collectorLoop, hstep]
    | ok pr =>
      obtain ⟨fsa, line⟩ := pr
      simp only [List.cons_append, collectorLoop, hstep]
      simp only [List.append_eq]
      rw [ih fsa]
      cases h1 : collectorLoop proot droot fsa t with
      | error e => rfl
      | ok pr1 =>
        obtain ⟨fsb, o1⟩ := pr1
        cases h2 : collectorLoop proot droot fsb L2 with
        | error e =>
          dsimp only
          rw [h2]
        | ok pr2 =>
          obtain ⟨fsc, o2⟩ := pr2
          dsimp only
          rw [h2]
          rfl

/-- Claim C7: running the File Collector twice with identical inputs and
an unchanged filesystem in between is idempotent: the second run succeeds
with the same output, and the filesystem after the second run agrees with
the one after the first run at every path (in particular on the
destination contents).  Hypotheses: existing sources lie under the
project root (otherwise the first run aborts), and no source lies on the
destination root's path or vice versa, as with the script's fixed
constants. -/
theorem claim_C7 (S : List FPath) (proot droot : FPath) (fs : FS)
    (H1 : ∀ t ∈ S, pathExists fs t = true → proot <+: t)
    (H2 : ∀ t ∈ S, ¬ t <+: droot ∧ ¬ droot <+: t) :
    ∃ fs1 out, runCollector S proot droot fs = .ok (fs1, out) ∧
      ∃ fs2, runCollector S proot droot fs1 = .ok (fs2, out) ∧
        ∀ p, lookupFS fs2 p = lookupFS fs1 p := by
  have H1' : ∀ t ∈ S, (lookupFS (srcPart S fs) t).isSome = true → proot <+: t := by
    intro t ht hsome
    apply H1 t ht
    unfold pathExists
    rw [← srcPart_lookup S fs t (inRegion_of_mem_pref ht List.prefix_rfl)]
    exact hsome
  obtain ⟨h0, -, -, -, hr0⟩ := run_effect S (srcPart S fs) proot droot H1' H2 []
  obtain ⟨fs1, hrun1, hsp1, -⟩ := hr0 fs rfl
  obtain ⟨fs2, hrun2, hsp2, -⟩ := hr0 fs1 hsp1
  refine ⟨fs1, _, hrun1, fs2, hrun2, ?_⟩
  intro p
  obtain ⟨h, hc, -, -, hr⟩ := run_effect S (srcPart S fs) proot droot H1' H2 p
  obtain ⟨fs1b, hrun1b, hsp1b, hlk1⟩ := hr fs rfl
  rw [hrun1] at hrun1b
  cases hrun1b
  obtain ⟨fs2b, hrun2b, hsp2b, hlk2⟩ := hr fs1 hsp1
  rw [hrun2] at hrun2b
  cases hrun2b
  rw [hlk2, hlk1]
  exact CEI_idem hc _

/-- Claim C2: for every source list, the run succeeds printing one line
per source (a copied notice for existing sources, exactly one skip notice
naming each missing source) plus the completion notice; every existing
source's entry — a regular file with its content and
modification-time/permission metadata, or a directory — appears under the
destination root at the path obtained by stripping the project-root
prefix, overwriting whatever was there; and a missing source creates no
destination artifact: its would-be destination path is left untouched
(stated for a missing source that is not an ancestor of an existing
source, whose copy would legitimately populate that path). -/
theorem claim_C2 (S : List FPath) (proot droot : FPath) (fs : FS)
    (H1 : ∀ t ∈ S, pathExists fs t = true → proot <+: t)
    (H2 : ∀ t ∈ S, ¬ t <+: droot ∧ ¬ droot <+: t) :
    ∃ fs1, runCollector S proot droot fs =
        .ok (fs1, (S.map fun t => if pathExists fs t = true then copiedLine t else skipLine t) ++
          [doneLine droot]) ∧
      (∀ t ∈ S, ∀ e, lookupFS fs t = some e →
        lookupFS fs1 (droot ++ t.drop proot.length) = some e) ∧
      (∀ t ∈ S, lookupFS fs t = none → proot <+: t → t ≠ proot →
        (∀ u ∈ S, pathExists fs u = true → ¬ t <+: u) →
        lookupFS fs1 (droot ++ t.drop proot.length) =
          lookupFS fs (droot ++ t.drop proot.length)) := by
  set σ := srcPart S fs with hσdef
  have hσlkp : ∀ t ∈ S, lookupFS σ t = lookupFS fs t := fun t ht =>
    srcPart_lookup S fs t (inRegion_of_mem_pref ht List.prefix_rfl)
  have H1' : ∀ t ∈ S, (lookupFS σ t).isSome = true → proot <+: t := by
    intro t ht hsome
    apply H1 t ht
    unfold pathExists
    rw [← hσlkp t ht]
    exact hsome
  obtain ⟨h0, -, -, -, hr0⟩ := run_effect S σ proot droot H1' H2 []
  obtain ⟨fs1, hrun1, hsp1, -⟩ := hr0 fs rfl
  have hout : S.map (stepLine σ) =
      S.map fun t => if pathExists fs t = true then copiedLine t else skipLine t := by
    apply List.map_congr_left
    intro t ht
    unfold stepLine pathExists
    rw [hσlkp t ht]
  have hmkσ : srcPart S (mkdirParents fs droot) = σ := by
    rw [srcPart_mkdirParents S fs droot (fun r hr => inRegion_droot_anc S droot r H2 hr)]
  refine ⟨fs1, ?_, ?_, ?_⟩
  · rw [hrun1, hout]
  · intro t ht e he
    have hσt : lookupFS σ t = some e := by rw [hσlkp t ht, he]
    have hsome : (lookupFS σ t).isSome = true := by rw [hσt]; rfl
    have hproot : proot <+: t := H1' t ht hsome
    obtain ⟨L1, L2, hS⟩ := List.append_of_mem ht
    have hsub1 : ∀ u ∈ L1, u ∈ S := by
      intro u hu
      rw [hS]
      exact List.mem_append_left _ hu
    have hsub2 : ∀ u ∈ L2, u ∈ S := by
      intro u hu
      rw [hS]
      exact List.mem_append_right _ (List.mem_cons_of_mem t hu)
    obtain ⟨hA, -, -, -, hrA⟩ := loop_effect S σ proot droot H1' H2 L1 hsub1
      (droot ++ t.drop proot.length)
    obtain ⟨fsa, hloopA, hspa, -⟩ := hrA (mkdirParents fs droot) hmkσ
    obtain ⟨hB, -, -, -, hxB, hrB⟩ := step_effect S σ proot droot t ht H1' H2
      (droot ++ t.drop proot.length)
    obtain ⟨fsb, hstepB, hspb, hlkB⟩ := hrB fsa hspa
    have hlkb : lookupFS fsb (droot ++ t.drop proot.length) = some e := by
      rw [hlkB, hxB ⟨hsome, rfl⟩, hσt]
    obtain ⟨hCc, -, hwC, -, hrC⟩ := loop_effect S σ proot droot H1' H2 L2 hsub2
      (droot ++ t.drop proot.length)
    obtain ⟨fsc, hloopC, hspc, hlkC⟩ := hrC fsb hspb
    have hlkc : lookupFS fsc (droot ++ t.drop proot.length) = some e := by
      rw [hlkC, hlkb]
      rcases hwC (some e) with hcase | ⟨hcase, -⟩ | ⟨-, hcase, hsome2⟩
      · exact hcase
      · cases hcase
      · rw [hcase, List.drop_left, pref_restore hproot, hσt]
    have hrun1b := hrun1
    rw [hS] at hrun1b
    rw [List.map_append, List.map_cons] at hrun1b
    have hloopFull : collectorLoop proot droot (mkdirParents fs droot) (L1 ++ t :: L2) =
        .ok (fsc, L1.map (stepLine σ) ++
          (stepLine σ t :: L2.map (stepLine σ))) := by
      rw [collectorLoop_append, hloopA]
      dsimp only
      simp only [collectorLoop, hstepB, hloopC]
    have hrunFull : runCollector (L1 ++ t :: L2) proot droot fs =
        .ok (fsc, (L1.map (stepLine σ) ++ (stepLine σ t :: L2.map (stepLine σ))) ++
          [doneLine droot]) := by
      unfold runCollector
      rw [hloopFull]
    rw [hrunFull] at hrun1b
    cases hrun1b
    exact hlkc
  · intro t ht hnone hproot hne hnocover
    have hσt : lookupFS σ t = none := by rw [hσlkp t ht, hnone]
    obtain ⟨h, -, -, htc, hr⟩ := run_effect S σ proot droot H1' H2
      (droot ++ t.drop proot.length)
    obtain ⟨fs1b, hrunb, -, hlk⟩ := hr fs rfl
    rw [hrun1] at hrunb
    cases hrunb
    have hid : ∀ x, h x = x := by
      rcases htc with hid | htouch
      · exact hid
      · exfalso
        rcases htouch with hcase | ⟨s2, hs2, hsome2, hcase⟩ | ⟨-, hcase⟩
        · have hlen := hcase.length_le
          rw [List.length_append] at hlen
          have hdor : t.drop proot.length ≠ [] := by
            intro hnil
            apply hne
            have hres := pref_restore hproot
            rw [hnil, List.append_nil] at hres
            exact hres.symm
          have hpos : 0 < (t.drop proot.length).length := List.length_pos.mpr hdor
          omega
        · refine hnocover s2 hs2 ?_ ?_
          · unfold pathExists
            rw [← hσlkp s2 hs2]
            exact hsome2
          · have hdd : t.drop proot.length <+: s2.drop proot.length :=
              ( List.prefix_append_right_inj droot).mp hcase
            have hlift := ( List.prefix_append_right_inj proot).mpr hdd
            rw [pref_restore hproot, pref_restore (H1' s2 hs2 hsome2)] at hlift
            exact hlift
        · rw [List.drop_left, pref_restore hproot, hσt] at hcase
          cases hcase
    rw [hlk, hid]

/-- Claim C9 as amended: the per-source reporting is exactly one line per
source — a `✅ Copied` notice when the source exists and a `⚠️ Skipped
missing` warning when it does not — followed by the completion notice;
the skip warnings are not the only per-source output. -/
theorem claim_C9 (S : List FPath) (proot droot : FPath) (fs : FS)
    (H1 : ∀ t ∈ S, pathExists fs t = true → proot <+: t)
    (H2 : ∀ t ∈ S, ¬ t <+: droot ∧ ¬ droot <+: t) :
    ∃ fs1, runCollector S proot droot fs =
      .ok (fs1, (S.map fun t => if pathExists fs t = true then copiedLine t else skipLine t) ++
        [doneLine droot]) := by
  have hσlkp : ∀ t ∈ S, lookupFS (srcPart S fs) t = lookupFS fs t := fun t ht =>
    srcPart_lookup S fs t (inRegion_of_mem_pref ht List.prefix_rfl)
  have H1' : ∀ t ∈ S, (lookupFS (srcPart S fs) t).isSome = true → proot <+: t := by
    intro t ht hsome
    apply H1 t ht
    unfold pathExists
    rw [← hσlkp t ht]
    exact hsome
  obtain ⟨h0, -, -, -, hr0⟩ := run_effect S (srcPart S fs) proot droot H1' H2 []
  obtain ⟨fs1, hrun1, -, -⟩ := hr0 fs rfl
  have hout : S.map (stepLine (srcPart S fs)) =
      S.map fun t => if pathExists fs t = true then copiedLine t else skipLine t := by
    apply List.map_congr_left
    intro t ht
    unfold stepLine pathExists
    rw [hσlkp t ht]
  exact ⟨fs1, by rw [hrun1, hout]⟩

/-- Counterexample to claim C9 as stated: with one existing source, the
run prints a per-source `✅ Copied` line, so the skip warnings are not the
only per-source reporting. -/
theorem claim_C9_counterexample :
    (runCollector [(["r", "a"] : FPath)] ["r"] ["d"]
        [((["r", "a"] : FPath), Entry.file ⟨"x", 1, 2⟩)]).toOption.map Prod.snd =
      some ["✅ Copied r\x5ca", "\nAll done! Files collected in: d"] := by decide

theorem claim_C2_witness :
    (∀ t ∈ [(["r", "a"] : FPath)],
      pathExists [((["r", "a"] : FPath), Entry.file ⟨"x", 1, 2⟩)] t = true →
        (["r"] : FPath) <+: t) ∧
    (∀ t ∈ [(["r", "a"] : FPath)], ¬ t <+: (["d"] : FPath) ∧ ¬ (["d"] : FPath) <+: t) ∧
    (∃ fs1, runCollector [(["r", "a"] : FPath)] ["r"] ["d"]
        [((["r", "a"] : FPath), Entry.file ⟨"x", 1, 2⟩)] =
        .ok (fs1, ([(["r", "a"] : FPath)].map fun t =>
          if pathExists [((["r", "a"] : FPath), Entry.file ⟨"x", 1, 2⟩)] t = true
          then copiedLine t else skipLine t) ++ [doneLine ["d"]]) ∧
      (∀ t ∈ [(["r", "a"] : FPath)], ∀ e,
        lookupFS [((["r", "a"] : FPath), Entry.file ⟨"x", 1, 2⟩)] t = some e →
        lookupFS fs1 (["d"] ++ t.drop (["r"] : FPath).length) = some e) ∧
      (∀ t ∈ [(["r", "a"] : FPath)],
        lookupFS [((["r", "a"] : FPath), Entry.file ⟨"x", 1, 2⟩)] t = none →
        (["r"] : FPath) <+: t → t ≠ ["r"] →
        (∀ u ∈ [(["r", "a"] : FPath)],
          pathExists [((["r", "a"] : FPath), Entry.file ⟨"x", 1, 2⟩)] u = true → ¬ t <+: u) →
        lookupFS fs1 (["d"] ++ t.drop (["r"] : FPath).length) =
          lookupFS [((["r", "a"] : FPath), Entry.file ⟨"x", 1, 2⟩)]
            (["d"] ++ t.drop (["r"] : FPath).length))) :=
  ⟨by decide, by decide, claim_C2 _ ["r"] ["d"] _ (by decide) (by decide)⟩

theorem claim_C7_witness :
    (∀ t ∈ [(["r", "a"] : FPath)],
      pathExists [((["r", "a"] : FPath), Entry.file ⟨"x", 1, 2⟩)] t = true →
        (["r"] : FPath) <+: t) ∧
    (∀ t ∈ [(["r", "a"] : FPath)], ¬ t <+: (["d"] : FPath) ∧ ¬ (["d"] : FPath) <+: t) ∧
    (∃ fs1 out, runCollector [(["r", "a"] : FPath)] ["r"] ["d"]
        [((["r", "a"] : FPath), Entry.file ⟨"x", 1, 2⟩)] = .ok (fs1, out) ∧
      ∃ fs2, runCollector [(["r", "a"] : FPath)] ["r"] ["d"] fs1 = .ok (fs2, out) ∧
        ∀ p, lookupFS fs2 p = lookupFS fs1 p) :=
  ⟨by decide, by decide, claim_C7 _ ["r"] ["d"] _ (by decide) (by decide)⟩

theorem claim_C9_witness :
    (∀ t ∈ [(["r", "a"] : FPath), (["r", "b"] : FPath)],
      pathExists [((["r", "a"] : FPath), Entry.file ⟨"x", 1, 2⟩)] t = true →
        (["r"] : FPath) <+: t) ∧
    (∀ t ∈ [(["r", "a"] : FPath), (["r", "b"] : FPath)],
      ¬ t <+: (["d"] : FPath) ∧ ¬ (["d"] : FPath) <+: t) ∧
    (∃ fs1, runCollector [(["r", "a"] : FPath), (["r", "b"] : FPath)] ["r"] ["d"]
        [((["r", "a"] : FPath), Entry.file ⟨"x", 1, 2⟩)] =
        .ok (fs1, ([(["r", "a"] : FPath), (["r", "b"] : FPath)].map fun t =>
          if pathExists [((["r", "a"] : FPath), Entry.file ⟨"x", 1, 2⟩)] t = true
          then copiedLine t else skipLine t) ++ [doneLine ["d"]])) :=
  ⟨by decide, by decide, claim_C9 _ ["r"] ["d"] _ (by decide) (by decide)⟩
